import Mathlib

/-!
# Particle fountain: particle store, physics step and lifecycle

A shallow embedding of the simulation core of `src/main.c`.

Modelling conventions.
* `float`/`double` values are rationals (`ℚ`). The sphere test rounds as the
  code does: `squaredDistance` rounds each difference, product and sum to
  single precision (`roundF32`: nearest, ties to even; every operation rounded
  on its own), and the threshold of `handleSphereCollision` is the `float` the
  sum `(2 * 2) + 0.1` is stored in. All other arithmetic is exact. Infinities
  and NaN are not modelled: `roundF32` keeps the spacing of the top binade
  above the largest `float`.
* A pointer to a `ParticleNode` is an `Option Nat` (`none` is `NULL`); the heap
  maps an address to the node allocated there (`none`: not allocated).
* Functions that dereference pointers or loop return `Option`: `none` stands
  for a dereference of a pointer that is not allocated, for a loop that has
  used up its fuel, and for `exit(EXIT_FAILURE)` after a failed `malloc`.
* `malloc` is an input: the pointer it returns is an argument of
  `createParticle`.
* `rand()` reads the next element of a stream of non-negative integers held
  in the state.
* `particleList.size` is an `Int`; `size++`/`size--` are `+ 1`/`- 1` (the
  counter is taken to stay inside the range of `int`).
-/

namespace ParticleFountain

/-! ## Constants -/

def GRAVITY : ℚ := -0.005
def SPEED_FACTOR : ℚ := 0.1
def FRICTION_FACTOR : ℚ := 0.9
def GROUND_SIZE : ℚ := 15.0
def SPHERE_RADIUS : ℚ := 2.0

/-! ## Data model -/

/-- The record `struct Particle`; `color0..2` are `color[0..2]`. -/
structure Particle where
  px : ℚ
  py : ℚ
  pz : ℚ
  dx : ℚ
  dy : ℚ
  dz : ℚ
  speed : ℚ
  angleX : ℚ
  angleY : ℚ
  angleZ : ℚ
  dAngleX : ℚ
  dAngleY : ℚ
  dAngleZ : ℚ
  color0 : ℚ
  color1 : ℚ
  color2 : ℚ
  active : Bool
deriving DecidableEq

/-- The record `struct ParticleNode`. -/
structure ParticleNode where
  next : Option Nat
  prev : Option Nat
  particle : Particle
deriving DecidableEq

/-- The record `struct ParticleList`. -/
structure ParticleList where
  head : Option Nat
  tail : Option Nat
  size : Int
deriving DecidableEq

/-- Allocated nodes, by address. -/
abbrev Heap := Nat → Option ParticleNode

/-- The global variables the simulation core reads and writes, the heap, and
the stream of results the coming calls of `rand()` return. -/
structure Sim where
  heap : Heap
  particleList : ParticleList
  constantStream : Bool
  manualFiring : Bool
  randomSpeedMode : Bool
  randomSpinMode : Bool
  frictionMode : Bool
  sprayMode : Bool
  rng : Nat → Nat

/-- The globals at program start (`main` sets the list empty), nothing allocated. -/
def initialSim (rng : Nat → Nat) : Sim :=
  { heap := fun _ => none
    particleList := { head := none, tail := none, size := 0 }
    constantStream := true
    manualFiring := false
    randomSpeedMode := false
    randomSpinMode := true
    frictionMode := true
    sprayMode := false
    rng := rng }

/-! ## Geometry and collisions (on the particle a node holds) -/

def isParticleWithinHoleExtents (particle : Particle) : Bool :=
  decide (particle.px ≥ 5.0 ∧ particle.px ≤ 10 ∧
    particle.pz ≥ 5.0 ∧ particle.pz ≤ 10)

def isParticleWithinGroundExtents (particle : Particle) : Bool :=
  decide (particle.px ≥ -GROUND_SIZE ∧ particle.px ≤ GROUND_SIZE ∧
    particle.pz ≥ -GROUND_SIZE ∧ particle.pz ≤ GROUND_SIZE)

/-- The integer nearest to `q`, the even one of the two when `q` is half way. -/
def roundEven (q : ℚ) : Int :=
  let f := ⌊q⌋
  let r := q - f
  if r < 1 / 2 then f else if 1 / 2 < r then f + 1 else if f % 2 = 0 then f else f + 1

/-- Climb from exponent `e` while the next power of two is still at most `a`,
at most `k` times. -/
def binadeFrom : Nat → Int → ℚ → Int
  | 0, e, _ => e
  | k + 1, e, a => if (2 : ℚ) ^ (e + 1) ≤ a then binadeFrom k (e + 1) a else e

/-- The exponent of a single-precision value near `x`: the greatest `e` from
-126 to 127 with `2 ^ e ≤ |x|`, and -126 (the subnormal range) below that. -/
def binade (x : ℚ) : Int := binadeFrom 253 (-126) |x|

/-- The value `x` rounded to single precision (24 significant bits, nearest,
ties to even). -/
def roundF32 (x : ℚ) : ℚ :=
  (roundEven (x / (2 : ℚ) ^ (binade x - 23)) : ℚ) * (2 : ℚ) ^ (binade x - 23)

def squaredDistance (x1 y1 z1 x2 y2 z2 : ℚ) : ℚ :=
  let dx := roundF32 (x1 - x2)
  let dy := roundF32 (y1 - y2)
  let dz := roundF32 (z1 - z2)
  roundF32 (roundF32 (roundF32 (dx * dx) + roundF32 (dy * dy)) + roundF32 (dz * dz))

def applyFriction (p : Particle) : Particle :=
  let p := { p with speed := p.speed * FRICTION_FACTOR }
  let p := { p with dx := p.dx * FRICTION_FACTOR }
  let p := { p with dy := p.dy * FRICTION_FACTOR }
  { p with dz := p.dz * FRICTION_FACTOR }

/-- The condition of the `if` in `handleGroundCollision`. -/
def groundHit (p : Particle) : Bool :=
  decide (p.py < 0.1) && decide (p.py > -0.1) &&
    isParticleWithinGroundExtents p && !isParticleWithinHoleExtents p

def handleGroundCollision (frictionMode : Bool) (p : Particle) : Particle :=
  if groundHit p then
    let p := { p with py := 0.1 }
    let p := { p with dy := -p.dy }
    if frictionMode == true then applyFriction p else p
  else p

/-- The condition of the `if` in `handleSphereCollision`. -/
def sphereHit (p : Particle) : Bool :=
  let minDistanceSquared : ℚ := roundF32 ((SPHERE_RADIUS * SPHERE_RADIUS) + 0.1)
  let sphere1CenterX : ℚ := -10.0
  let sphere1CenterY : ℚ := 2.0
  let sphere1CenterZ : ℚ := -10.0
  let sphere2CenterX : ℚ := 5.0
  let sphere2CenterY : ℚ := 2.0
  let sphere2CenterZ : ℚ := -5.0
  let distance1Squared := squaredDistance p.px p.py p.pz
    sphere1CenterX sphere1CenterY sphere1CenterZ
  let distance2Squared := squaredDistance p.px p.py p.pz
    sphere2CenterX sphere2CenterY sphere2CenterZ
  decide (distance1Squared < minDistanceSquared) ||
    decide (distance2Squared < minDistanceSquared)

def handleSphereCollision (frictionMode : Bool) (p : Particle) : Particle :=
  if sphereHit p then
    let p := { p with dx := -p.dx }
    let p := { p with dy := -p.dy }
    let p := { p with dz := -p.dz }
    let p := if frictionMode == true then applyFriction p else p
    let offset : ℚ := 0.05
    let p := { p with px := p.px + offset * p.dx }
    let p := { p with py := p.py + offset * p.dy }
    { p with pz := p.pz + offset * p.dz }
  else p

/-- The C library `fmod` on exact values: `x - y * trunc (x / y)`. -/
def fmod (x y : ℚ) : ℚ :=
  x - y * (if 0 ≤ x / y then ⌊x / y⌋ else ⌈x / y⌉)

/-- Gravity and the position update: the first four statements of
`updateParticle`. -/
def integrate (p : Particle) : Particle :=
  let p := { p with dy := p.dy + GRAVITY }
  let p := { p with px := p.px + p.dx * p.speed * SPEED_FACTOR }
  let p := { p with py := p.py + p.dy * p.speed * SPEED_FACTOR }
  { p with pz := p.pz + p.dz * p.speed * SPEED_FACTOR }

/-- The two death tests of `updateParticle`. -/
def markInactive (p : Particle) : Particle :=
  let p := if p.speed < 0.1 then { p with active := false } else p
  if p.py < -75.0 then { p with active := false } else p

/-- The spin block of `updateParticle`. -/
def spin (randomSpinMode : Bool) (p : Particle) : Particle :=
  if randomSpinMode then
    let p := { p with angleX := p.angleX + p.dAngleX }
    let p := { p with angleY := p.angleY + p.dAngleY }
    let p := { p with angleZ := p.angleZ + p.dAngleZ }
    let p := { p with angleX := fmod p.angleX 360.0 }
    let p := { p with angleY := fmod p.angleY 360.0 }
    { p with angleZ := fmod p.angleZ 360.0 }
  else p

/-- The particle after the advance-and-collide part of `updateParticle`
(gravity, position, ground check, sphere check). -/
def advanceCollide (frictionMode : Bool) (p : Particle) : Particle :=
  handleSphereCollision frictionMode (handleGroundCollision frictionMode (integrate p))

def updateParticle (randomSpinMode frictionMode : Bool) (p : Particle) : Particle :=
  if p.active then
    spin randomSpinMode (markInactive (advanceCollide frictionMode p))
  else p

/-! ## The particle store -/

/-- One call of `rand()`: the result, and the state with the stream advanced. -/
def rand (s : Sim) : Nat × Sim :=
  (s.rng 0, { s with rng := fun n => s.rng (n + 1) })

/-- The particle `createParticle` builds (the source's lines from `float speed;`
to the compound literal), with the state after its calls of `rand()`. The
three colour samples are drawn in the order they are written. -/
def newParticle (s : Sim) : Particle × Sim :=
  let (r1, s) := rand s
  let (r2, s) := rand s
  let dx : ℚ := if !s.sprayMode then ((r1 % 100 : Nat) : ℚ) / 100.0 - 0.5
    else ((r1 % 200 : Nat) : ℚ) / 100.0 - 1.0
  let dz : ℚ := if !s.sprayMode then ((r2 % 100 : Nat) : ℚ) / 100.0 - 0.5
    else ((r2 % 200 : Nat) : ℚ) / 100.0 - 1.0
  let (speed, s) : ℚ × Sim :=
    if s.randomSpeedMode then
      let (r3, s) := rand s
      (1.0 + ((r3 % 10 : Nat) : ℚ) / 10.0, s)
    else (1.0, s)
  let (c0, s) := rand s
  let (c1, s) := rand s
  let (c2, s) := rand s
  ({ px := 0.0, py := 0.5, pz := 0.0
     dx := dx, dy := 1.0, dz := dz
     speed := speed
     angleX := 0.0, angleY := 0.0, angleZ := 0.0
     dAngleX := 2.0, dAngleY := 3.0, dAngleZ := 1.5
     color0 := ((c0 % 100 : Nat) : ℚ) / 100.0
     color1 := ((c1 % 100 : Nat) : ℚ) / 100.0
     color2 := ((c2 % 100 : Nat) : ℚ) / 100.0
     active := true }, s)

/-- The second half of `createParticle` (from `newNode->next = NULL;` on):
the node allocated at `a` receives `particle` and is linked in at the tail. -/
def linkNode (a : Nat) (particle : Particle) (s : Sim) : Option Sim :=
  let node : ParticleNode :=
    { next := none, prev := s.particleList.tail, particle := particle }
  let s : Sim := { s with heap := Function.update s.heap a (some node) }
  let linked : Option Sim :=
    if s.particleList.size == 0 then
      some { s with particleList := { s.particleList with head := some a } }
    else
      match s.particleList.tail with
      | none => none
      | some t =>
        match s.heap t with
        | none => none
        | some tn =>
          some { s with heap := Function.update s.heap t (some { tn with next := some a }) }
  match linked with
  | none => none
  | some s =>
    let s : Sim := { s with particleList := { s.particleList with tail := some a } }
    some { s with particleList := { s.particleList with size := s.particleList.size + 1 } }

/-- The function `createParticle`; `newNode` is what `malloc` returned, and a
`NULL` there ends the process. -/
def createParticle (newNode : Option Nat) (s : Sim) : Option Sim :=
  match newNode with
  | none => none
  | some a =>
    let (particle, s) := newParticle s
    linkNode a particle s

/-- The body of the `if (!currentNode->particle.active)` of
`removeInactiveParticles`: unlink the node at `a`, free it, decrement `size`. -/
def unlinkNode (a : Nat) (s : Sim) : Option Sim :=
  match s.heap a with
  | none => none
  | some cur =>
    let s1 : Option Sim :=
      match cur.prev with
      | some b =>
        match s.heap b with
        | none => none
        | some pn =>
          some { s with heap := Function.update s.heap b (some { pn with next := cur.next }) }
      | none => some { s with particleList := { s.particleList with head := cur.next } }
    match s1 with
    | none => none
    | some s1 =>
      match s1.heap a with
      | none => none
      | some cur1 =>
        let s2 : Option Sim :=
          match cur1.next with
          | some c =>
            match s1.heap c with
            | none => none
            | some nn =>
              some { s1 with heap := Function.update s1.heap c (some { nn with prev := cur1.prev }) }
          | none => some { s1 with particleList := { s1.particleList with tail := cur1.prev } }
        match s2 with
        | none => none
        | some s2 =>
          let s3 : Sim := { s2 with heap := Function.update s2.heap a none }
          some { s3 with particleList :=
            { s3.particleList with size := s3.particleList.size - 1 } }

/-- The `while` loop of `removeInactiveParticles`, at most `fuel` iterations. -/
def removeInactiveLoop : Nat → Option Nat → Sim → Option Sim
  | _, none, s => some s
  | 0, some _, _ => none
  | fuel + 1, some a, s =>
    match s.heap a with
    | none => none
    | some cur =>
      let nextNode := cur.next
      if !cur.particle.active then
        match unlinkNode a s with
        | none => none
        | some s1 => removeInactiveLoop fuel nextNode s1
      else removeInactiveLoop fuel nextNode s

def removeInactiveParticles (fuel : Nat) (s : Sim) : Option Sim :=
  removeInactiveLoop fuel s.particleList.head s

/-- The `while` loop of `resetSimulation`, at most `fuel` iterations. -/
def resetLoop : Nat → Option Nat → Heap → Option Heap
  | _, none, h => some h
  | 0, some _, _ => none
  | fuel + 1, some a, h =>
    match h a with
    | none => none
    | some cur =>
      let nextNode := cur.next
      resetLoop fuel nextNode (Function.update h a none)

def resetSimulation (fuel : Nat) (s : Sim) : Option Sim :=
  match resetLoop fuel s.particleList.head s.heap with
  | none => none
  | some h =>
    some { s with
      heap := h
      particleList := { head := none, tail := none, size := 0 }
      constantStream := true
      manualFiring := false
      randomSpinMode := true
      frictionMode := true
      sprayMode := false }

/-- The `while` loop of `updateFrame`, at most `fuel` iterations. -/
def updateLoop : Nat → Option Nat → Sim → Option Sim
  | _, none, s => some s
  | 0, some _, _ => none
  | fuel + 1, some a, s =>
    match s.heap a with
    | none => none
    | some cur =>
      let cur1 : ParticleNode :=
        { cur with particle := updateParticle s.randomSpinMode s.frictionMode cur.particle }
      updateLoop fuel cur1.next { s with heap := Function.update s.heap a (some cur1) }

def updateFrame (fuel : Nat) (s : Sim) : Option Sim :=
  match updateLoop fuel s.particleList.head s with
  | none => none
  | some s1 => removeInactiveParticles fuel s1

def timerFunc (newNode : Option Nat) (fuel : Nat) (s : Sim) : Option Sim :=
  if s.constantStream && !s.manualFiring then
    match createParticle newNode s with
    | none => none
    | some s1 => updateFrame fuel s1
  else updateFrame fuel s

/-- The keys of `keyboard` that reach the simulation core. -/
inductive Key where
  | w | s | f | c | m | p | t | g
deriving DecidableEq

/-- The cases of `keyboard` that change the simulation state; `newNode` is
what `malloc` returns should the key fire a particle. -/
def keyboard (key : Key) (newNode : Option Nat) (fuel : Nat) (s : Sim) : Option Sim :=
  match key with
  | Key.w => some { s with sprayMode := !s.sprayMode }
  | Key.s => some { s with randomSpeedMode := !s.randomSpeedMode }
  | Key.f => if s.manualFiring then createParticle newNode s else some s
  | Key.c => some { s with constantStream := !s.constantStream }
  | Key.m => some { s with manualFiring := !s.manualFiring }
  | Key.p => some { s with randomSpinMode := !s.randomSpinMode }
  | Key.t => resetSimulation fuel s
  | Key.g => some { s with frictionMode := !s.frictionMode }

/-! ## Store predicates -/

/-- The entry sequence of the store: `l` lists, in order, the address and the
particle of every node met from `c` along `next` up to `NULL`. -/
def Entries (h : Heap) : Option Nat → List (Nat × Particle) → Prop
  | c, [] => c = none
  | c, e :: l => c = some e.1 ∧
      ∃ n, h e.1 = some n ∧ n.particle = e.2 ∧ Entries h n.next l

/-- Well-formedness of the store, as a doubly linked list. -/
def WellFormed (s : Sim) : Prop :=
  ∃ l : List (Nat × Particle),
    Entries s.heap s.particleList.head l ∧
    s.particleList.size = l.length ∧
    (s.particleList.head = none ↔ s.particleList.tail = none) ∧
    (s.particleList.tail = none ↔ s.particleList.size = 0) ∧
    (∀ a n, s.particleList.head = some a → s.heap a = some n → n.prev = none) ∧
    (∀ a n, s.particleList.tail = some a → s.heap a = some n → n.next = none) ∧
    s.particleList.tail = l.getLast?.map Prod.fst ∧
    (∀ e ∈ l, ∀ n, s.heap e.1 = some n →
      (∀ b, n.next = some b → ∃ m, s.heap b = some m ∧ m.prev = some e.1) ∧
      (∀ b, n.prev = some b → ∃ m, s.heap b = some m ∧ m.next = some e.1))

/-- A segment of a doubly linked list: the nodes `l` run from `c` to just
before `q`; `p` is the `prev` of the first node and `t` the address of the
last node (`p` when the segment is empty). -/
def Seg (h : Heap) : Option Nat → Option Nat → List (Nat × Particle) →
    Option Nat → Option Nat → Prop
  | p, c, [], q, t => c = q ∧ t = p
  | p, c, e :: l, q, t => c = some e.1 ∧
      ∃ n, h e.1 = some n ∧ n.prev = p ∧ n.particle = e.2 ∧
        Seg h (some e.1) n.next l q t

/-! ## Predicates and inputs used by the theorems -/

/-- The pointer to the first node of `l`, or `q` when `l` is empty. -/
def headPtr (l : List (Nat × Particle)) (q : Option Nat) : Option Nat :=
  match l with
  | [] => q
  | e :: _ => some e.1

/-- The pointer to the last node of `l`, or `p` when `l` is empty. -/
def lastPtr (p : Option Nat) : List (Nat × Particle) → Option Nat
  | [] => p
  | e :: l => lastPtr (some e.1) l

/-- The store holds exactly the entries `l`, correctly linked both ways. -/
def Rep (s : Sim) (l : List (Nat × Particle)) : Prop :=
  Seg s.heap none s.particleList.head l none s.particleList.tail ∧
    s.particleList.size = l.length

/-- Only the heap and the list header differ between `s` and `s2`. -/
def SameGlobals (s s2 : Sim) : Prop :=
  s2 = { s with heap := s2.heap, particleList := s2.particleList }

/-- The six mode flags agree. -/
def SameFlags (s s2 : Sim) : Prop :=
  s2.constantStream = s.constantStream ∧ s2.manualFiring = s.manualFiring ∧
  s2.randomSpeedMode = s.randomSpeedMode ∧ s2.randomSpinMode = s.randomSpinMode ∧
  s2.frictionMode = s.frictionMode ∧ s2.sprayMode = s.sprayMode

/-- A particle at the origin moving straight up, used to build concrete inputs. -/
def sampleParticle : Particle :=
  { px := 0, py := 0, pz := 0, dx := 0, dy := 1, dz := 0, speed := 1
    angleX := 0, angleY := 0, angleZ := 0, dAngleX := 2, dAngleY := 3, dAngleZ := 1.5
    color0 := 0, color1 := 0, color2 := 0, active := true }

/-- An inactive particle. -/
def sampleDead : Particle := { sampleParticle with active := false }

/-- The heap of `sampleStore`. -/
def sampleHeap : Heap := fun a =>
  match a with
  | 0 => some { next := some 1, prev := none, particle := sampleDead }
  | 1 => some { next := some 2, prev := some 0, particle := sampleParticle }
  | 2 => some { next := none, prev := some 1, particle := sampleDead }
  | _ => none

/-- A store of three nodes at addresses 0, 1, 2; the first and the last are
inactive. -/
def sampleStore : Sim :=
  { initialSim (fun n => n) with
    heap := sampleHeap
    particleList := { head := some 0, tail := some 2, size := 3 } }

/-- The entry sequence of `sampleStore`. -/
def sampleEntries : List (Nat × Particle) :=
  [(0, sampleDead), (1, sampleParticle), (2, sampleDead)]

/-- The states the program can be in between two events: the start state,
and from there timer ticks and key presses, `malloc` returning `NULL` or a
node that is not in use. -/
inductive Reachable : Sim → Prop
  | init (rng : Nat → Nat) : Reachable (initialSim rng)
  | tick {s s2 : Sim} (newNode : Option Nat) (fuel : Nat) :
      Reachable s → (∀ a, newNode = some a → s.heap a = none) →
      timerFunc newNode fuel s = some s2 → Reachable s2
  | key {s s2 : Sim} (k : Key) (newNode : Option Nat) (fuel : Nat) :
      Reachable s → (∀ a, newNode = some a → s.heap a = none) →
      keyboard k newNode fuel s = some s2 → Reachable s2

/-- The store is well linked and every entry is active. -/
def AllActive (s : Sim) : Prop :=
  ∃ l, Rep s l ∧ ∀ e ∈ l, e.2.active = true

/-- A particle about to land on the ground at `(3, 0, 3)`. -/
def sampleLanding : Particle := { sampleParticle with px := 3, pz := 3, dy := 0 }

/-- A particle about to fall through the world floor. -/
def sampleFalling : Particle := { sampleParticle with py := -74.99, dy := -1 }

/-- The heap of `activeStore`. -/
def activeHeap : Heap := fun a =>
  match a with
  | 0 => some { next := some 1, prev := none, particle := sampleLanding }
  | 1 => some { next := none, prev := some 0, particle := sampleFalling }
  | _ => none

/-- A store of two active particles, at addresses 0 and 1. -/
def activeStore : Sim :=
  { initialSim (fun n => n) with
    heap := activeHeap
    particleList := { head := some 0, tail := some 1, size := 2 } }

/-- The entry sequence of `activeStore`. -/
def activeEntries : List (Nat × Particle) := [(0, sampleLanding), (1, sampleFalling)]


/-- The orientation fields of two particles agree. -/
def SameSpin (p q : Particle) : Prop :=
  q.angleX = p.angleX ∧ q.angleY = p.angleY ∧ q.angleZ = p.angleZ ∧
  q.dAngleX = p.dAngleX ∧ q.dAngleY = p.dAngleY ∧ q.dAngleZ = p.dAngleZ

/-- The orientation invariant: every angle in `[0, 360)`, and the increments
the ones `createParticle` sets. -/
def AngleInv (p : Particle) : Prop :=
  (0 ≤ p.angleX ∧ p.angleX < 360) ∧ (0 ≤ p.angleY ∧ p.angleY < 360) ∧
  (0 ≤ p.angleZ ∧ p.angleZ < 360) ∧
  p.dAngleX = 2.0 ∧ p.dAngleY = 3.0 ∧ p.dAngleZ = 1.5

/-- A run of `updateParticle` steps on one particle; each step has its own
setting of `randomSpinMode` and `frictionMode`. -/
def advanceMany (flags : List (Bool × Bool)) (p : Particle) : Particle :=
  flags.foldl (fun q f => updateParticle f.1 f.2 q) p

/-- The store is well linked and every particle in it satisfies `P`. -/
def AllEntries (P : Particle → Prop) (s : Sim) : Prop :=
  ∃ l, Rep s l ∧ ∀ e ∈ l, P e.2


/-- A particle that arrives at `(-10, 0.05, -10)`, on the ground under the
first sphere. -/
def sampleBoth : Particle :=
  { sampleParticle with px := -10, py := 0.05, pz := -10, dy := 0.005 }

/-- A particle in free flight above the fountain. -/
def sampleFree : Particle := { sampleParticle with py := 0.5 }

/-- The store `sampleStore` in manual firing mode. -/
def manualStore : Sim := { sampleStore with manualFiring := true }

/-- Position, direction and speed of two particles agree. -/
def SameMotion (p q : Particle) : Prop :=
  q.px = p.px ∧ q.py = p.py ∧ q.pz = p.pz ∧ q.dx = p.dx ∧ q.dy = p.dy ∧ q.dz = p.dz ∧
  q.speed = p.speed

theorem lastPtr_append_singleton (p : Option Nat) (l : List (Nat × Particle))
    (e : Nat × Particle) : lastPtr p (l ++ [e]) = some e.1 := by
  induction l generalizing p with
  | nil => rfl
  | cons x l ih => simpa [lastPtr] using ih (some x.1)

theorem lastPtr_eq_getLast (l : List (Nat × Particle)) :
    lastPtr none l = l.getLast?.map Prod.fst := by
  rcases List.eq_nil_or_concat l with h | ⟨l1, e, h⟩
  · subst h; rfl
  · subst h
    rw [List.concat_eq_append, lastPtr_append_singleton]
    simp

theorem lastPtr_eq_none (l : List (Nat × Particle)) : lastPtr none l = none ↔ l = [] := by
  rcases List.eq_nil_or_concat l with h | ⟨l1, e, h⟩
  · subst h; simp [lastPtr]
  · subst h
    rw [List.concat_eq_append, lastPtr_append_singleton]
    simp

theorem Seg_append {h : Heap} {l1 l2 : List (Nat × Particle)} {p c q t : Option Nat} :
    Seg h p c (l1 ++ l2) q t ↔ ∃ m t1, Seg h p c l1 m t1 ∧ Seg h t1 m l2 q t := by
  induction l1 generalizing p c with
  | nil =>
    constructor
    · intro hs
      exact ⟨c, p, ⟨rfl, rfl⟩, hs⟩
    · rintro ⟨m, t1, ⟨hc, ht⟩, hs⟩
      subst hc; subst ht
      exact hs
  | cons e l1 ih =>
    constructor
    · rintro ⟨hc, n, hn, hp, hpart, hs⟩
      obtain ⟨m, t1, h1, h2⟩ := ih.1 hs
      exact ⟨m, t1, ⟨hc, n, hn, hp, hpart, h1⟩, h2⟩
    · rintro ⟨m, t1, ⟨hc, n, hn, hp, hpart, h1⟩, h2⟩
      exact ⟨hc, n, hn, hp, hpart, ih.2 ⟨m, t1, h1, h2⟩⟩

theorem Seg_congr {h h2 : Heap} {l : List (Nat × Particle)} {p c q t : Option Nat}
    (hagree : ∀ e ∈ l, h2 e.1 = h e.1) (hs : Seg h p c l q t) : Seg h2 p c l q t := by
  induction l generalizing p c with
  | nil => exact hs
  | cons e l ih =>
    obtain ⟨hc, n, hn, hp, hpart, hrest⟩ := hs
    refine ⟨hc, n, ?_, hp, hpart, ih (fun x hx => hagree x (List.mem_cons_of_mem _ hx)) hrest⟩
    rw [hagree e (List.mem_cons_self _ _), hn]

theorem Seg_update_of_not_mem {h : Heap} {l : List (Nat × Particle)} {p c q t : Option Nat}
    {a : Nat} (v : Option ParticleNode) (ha : a ∉ l.map Prod.fst) (hs : Seg h p c l q t) :
    Seg (Function.update h a v) p c l q t := by
  apply Seg_congr _ hs
  intro e he
  have : e.1 ≠ a := by
    rintro rfl
    exact ha (List.mem_map_of_mem Prod.fst he)
  simp [Function.update, this]

theorem Seg_head {h : Heap} {l : List (Nat × Particle)} {p c q t : Option Nat}
    (hs : Seg h p c l q t) : c = headPtr l q := by
  cases l with
  | nil => exact hs.1
  | cons e l => exact hs.1

theorem Seg_last {h : Heap} {l : List (Nat × Particle)} {p c q t : Option Nat}
    (hs : Seg h p c l q t) : t = lastPtr p l := by
  induction l generalizing p c with
  | nil => exact hs.2
  | cons e l ih =>
    obtain ⟨_, n, _, _, _, hrest⟩ := hs
    exact ih hrest

theorem Seg_alloc {h : Heap} {l : List (Nat × Particle)} {p c q t : Option Nat}
    (hs : Seg h p c l q t) : ∀ e ∈ l, ∃ n, h e.1 = some n ∧ n.particle = e.2 := by
  induction l generalizing p c with
  | nil => intro e he; cases he
  | cons x l ih =>
    obtain ⟨_, n, hn, _, hpart, hrest⟩ := hs
    intro e he
    rcases List.mem_cons.1 he with rfl | he
    · exact ⟨n, hn, hpart⟩
    · exact ih hrest e he

theorem Seg_entries {h : Heap} {l : List (Nat × Particle)} {p c t : Option Nat}
    (hs : Seg h p c l none t) : Entries h c l := by
  induction l generalizing p c with
  | nil => exact hs.1
  | cons e l ih =>
    obtain ⟨hc, n, hn, _, hpart, hrest⟩ := hs
    exact ⟨hc, n, hn, hpart, ih hrest⟩

theorem Entries_unique {h : Heap} {l l2 : List (Nat × Particle)} {c : Option Nat}
    (h1 : Entries h c l) (h2 : Entries h c l2) : l = l2 := by
  induction l generalizing c l2 with
  | nil =>
    cases l2 with
    | nil => rfl
    | cons e l2 =>
      have hc : c = none := h1
      have := h2.1
      rw [hc] at this
      cases this
  | cons e l ih =>
    obtain ⟨hc, n, hn, hpart, hrest⟩ := h1
    cases l2 with
    | nil =>
      have hc2 : c = none := h2
      rw [hc2] at hc
      cases hc
    | cons e2 l2 =>
      obtain ⟨hc2, n2, hn2, hpart2, hrest2⟩ := h2
      have hee : e.1 = e2.1 := by
        rw [hc] at hc2
        exact Option.some.inj hc2
      rw [← hee, hn] at hn2
      cases hn2
      have : e = e2 := Prod.ext hee (hpart.symm.trans hpart2)
      subst this
      rw [ih hrest hrest2]

theorem Entries_suffix {h : Heap} {l1 l2 : List (Nat × Particle)} {c : Option Nat}
    (hs : Entries h c (l1 ++ l2)) : ∃ m, Entries h m l2 := by
  induction l1 generalizing c with
  | nil => exact ⟨c, hs⟩
  | cons e l1 ih =>
    obtain ⟨_, n, _, _, hrest⟩ := hs
    exact ih hrest

theorem Entries_nodup {h : Heap} {l : List (Nat × Particle)} {c : Option Nat}
    (hs : Entries h c l) : (l.map Prod.fst).Nodup := by
  induction l generalizing c with
  | nil => exact List.nodup_nil
  | cons e l ih =>
    have hs0 := hs
    obtain ⟨hc, n, hn, hpart, hrest⟩ := hs
    rw [List.map_cons, List.nodup_cons]
    refine ⟨?_, ih hrest⟩
    intro hmem
    obtain ⟨e2, he2, hfst⟩ := List.mem_map.1 hmem
    obtain ⟨xs, ys, hl⟩ := List.append_of_mem he2
    rw [hl] at hrest
    obtain ⟨m, hm⟩ := Entries_suffix hrest
    have hm0 := hm
    obtain ⟨hmc, -⟩ := hm
    rw [hfst, ← hc] at hmc
    subst hmc
    have := Entries_unique hs0 hm0
    have hlen := congrArg List.length this
    rw [hl] at hlen
    simp at hlen
    omega

theorem Seg_nodup {h : Heap} {l : List (Nat × Particle)} {p c t : Option Nat}
    (hs : Seg h p c l none t) : (l.map Prod.fst).Nodup :=
  Entries_nodup (Seg_entries hs)

/-- The node in the middle of a segment: its links point at its neighbours. -/
theorem Seg_mid {h : Heap} {l1 l2 : List (Nat × Particle)} {e : Nat × Particle}
    {p c q t : Option Nat} (hs : Seg h p c (l1 ++ e :: l2) q t) :
    ∃ n, h e.1 = some n ∧ n.particle = e.2 ∧ n.prev = lastPtr p l1 ∧ n.next = headPtr l2 q := by
  obtain ⟨m, t1, h1, h2⟩ := Seg_append.1 hs
  obtain ⟨_, n, hn, hp, hpart, hrest⟩ := h2
  exact ⟨n, hn, hpart, hp.trans (Seg_last h1), Seg_head hrest⟩

theorem Seg_of_entries {h : Heap} {l : List (Nat × Particle)} {p c : Option Nat}
    (he : Entries h c l)
    (hlink : ∀ e ∈ l, ∀ n, h e.1 = some n →
      ∀ b, n.next = some b → ∃ m, h b = some m ∧ m.prev = some e.1)
    (hp : ∀ a n, c = some a → h a = some n → n.prev = p) :
    Seg h p c l none (lastPtr p l) := by
  induction l generalizing p c with
  | nil => exact ⟨he, rfl⟩
  | cons e l ih =>
    obtain ⟨hc, n, hn, hpart, hrest⟩ := he
    refine ⟨hc, n, hn, hp e.1 n hc hn, hpart, ?_⟩
    apply ih hrest (fun x hx => hlink x (List.mem_cons_of_mem _ hx))
    intro a n2 ha hn2
    obtain ⟨m, hm, hmp⟩ := hlink e (List.mem_cons_self _ _) n hn a ha
    rw [hm] at hn2
    cases hn2
    exact hmp

theorem Rep_of_WellFormed {s : Sim} (hw : WellFormed s) : ∃ l, Rep s l := by
  obtain ⟨l, he, hsize, _, _, hhead, _, htail, hlink⟩ := hw
  refine ⟨l, ?_, hsize⟩
  have := Seg_of_entries he (fun e he n hn => (hlink e he n hn).1) hhead
  rw [htail, ← lastPtr_eq_getLast]
  exact this

theorem headPtr_eq_none (l : List (Nat × Particle)) : headPtr l none = none ↔ l = [] := by
  cases l <;> simp [headPtr]

theorem WellFormed_of_Rep {s : Sim} {l : List (Nat × Particle)} (hr : Rep s l) :
    WellFormed s := by
  obtain ⟨hseg, hsize⟩ := hr
  have hh := Seg_head hseg
  have ht := Seg_last hseg
  refine ⟨l, Seg_entries hseg, hsize, ?_, ?_, ?_, ?_, ?_, ?_⟩
  · rw [hh, ht, headPtr_eq_none, lastPtr_eq_none]
  · rw [ht, lastPtr_eq_none, hsize]
    simp
  · intro a n ha hn
    cases l with
    | nil => rw [hh] at ha; cases ha
    | cons e l =>
      obtain ⟨hc, n2, hn2, hp, _, _⟩ := hseg
      rw [hc] at ha
      cases ha
      rw [hn2] at hn
      cases hn
      exact hp
  · intro a n ha hn
    rcases List.eq_nil_or_concat l with h | ⟨l1, e, h⟩
    · subst h
      rw [ht] at ha
      cases ha
    · subst h
      rw [List.concat_eq_append] at hseg ht
      rw [ht, lastPtr_append_singleton] at ha
      cases ha
      obtain ⟨n2, hn2, _, _, hnext⟩ := Seg_mid hseg
      rw [hn2] at hn
      cases hn
      exact hnext
  · rw [ht, lastPtr_eq_getLast]
  · intro e he n hn
    obtain ⟨l1, l2, hl⟩ := List.append_of_mem he
    subst hl
    obtain ⟨n2, hn2, _, hprev, hnext⟩ := Seg_mid hseg
    rw [hn2] at hn
    cases hn
    constructor
    · intro b hb
      cases l2 with
      | nil => rw [hnext] at hb; cases hb
      | cons e2 l2 =>
        rw [hnext] at hb
        cases hb
        have hseg2 : Seg s.heap none s.particleList.head ((l1 ++ [e]) ++ e2 :: l2) none
            s.particleList.tail := by simpa using hseg
        obtain ⟨m, hm, _, hmp, _⟩ := Seg_mid hseg2
        exact ⟨m, hm, by rw [hmp, lastPtr_append_singleton]⟩
    · intro b hb
      rcases List.eq_nil_or_concat l1 with h | ⟨l0, e0, h⟩
      · subst h
        rw [hprev] at hb
        cases hb
      · subst h
        rw [List.concat_eq_append] at hprev hseg
        rw [hprev, lastPtr_append_singleton] at hb
        cases hb
        have hseg2 : Seg s.heap none s.particleList.head (l0 ++ e0 :: (e :: l2)) none
            s.particleList.tail := by simpa using hseg
        obtain ⟨m, hm, _, _, hmn⟩ := Seg_mid hseg2
        exact ⟨m, hm, hmn⟩

theorem WellFormed_iff_Rep (s : Sim) : WellFormed s ↔ ∃ l, Rep s l :=
  ⟨Rep_of_WellFormed, fun ⟨_, hr⟩ => WellFormed_of_Rep hr⟩

/-- The entry sequence of a well-formed store is the one it represents. -/
theorem Rep_of_WellFormed_entries {s : Sim} {l : List (Nat × Particle)} (hw : WellFormed s)
    (he : Entries s.heap s.particleList.head l) : Rep s l := by
  obtain ⟨l2, hr⟩ := Rep_of_WellFormed hw
  have := Entries_unique he (Seg_entries hr.1)
  subst this
  exact hr

theorem SameGlobals.refl (s : Sim) : SameGlobals s s := rfl

theorem SameGlobals.trans {s1 s2 s3 : Sim} (h12 : SameGlobals s1 s2) (h23 : SameGlobals s2 s3) :
    SameGlobals s1 s3 := by
  unfold SameGlobals at *
  rw [h23, h12]

theorem list_nil_or_snoc {α : Type} (l : List α) : l = [] ∨ ∃ l1 e, l = l1 ++ [e] := by
  rcases List.eq_nil_or_concat l with h | ⟨l1, e, h⟩
  · exact Or.inl h
  · exact Or.inr ⟨l1, e, by rw [h, List.concat_eq_append]⟩

theorem linkNode_spec {s : Sim} {l : List (Nat × Particle)} (a : Nat) (particle : Particle)
    (hr : Rep s l) (hfresh : s.heap a = none) :
    ∃ s2, linkNode a particle s = some s2 ∧ Rep s2 (l ++ [(a, particle)]) ∧
      SameGlobals s s2 := by
  obtain ⟨hseg, hsize⟩ := hr
  have hnd := Seg_nodup hseg
  have hal := Seg_alloc hseg
  have ht := Seg_last hseg
  have hh := Seg_head hseg
  have ha_notin : a ∉ l.map Prod.fst := by
    intro hmem
    obtain ⟨e, he, rfl⟩ := List.mem_map.1 hmem
    obtain ⟨n, hn, _⟩ := hal e he
    rw [hfresh] at hn
    cases hn
  rcases list_nil_or_snoc l with h | ⟨l1, e, h⟩
  · subst h
    have hsz : s.particleList.size = 0 := by simpa using hsize
    have htl : s.particleList.tail = none := ht
    simp only [linkNode, hsz, htl, beq_self_eq_true, if_true]
    refine ⟨_, rfl, ⟨?_, ?_⟩, ?_⟩
    · refine ⟨rfl, _, Function.update_same _ _ _, rfl, rfl, rfl, rfl⟩
    · simp [hsz]
    · rfl
  · subst h
    rw [lastPtr_append_singleton] at ht
    have hsz : s.particleList.size ≠ 0 := by
      rw [hsize]; simp; omega
    obtain ⟨m, t1, hs1, hs2⟩ := Seg_append.1 hseg
    obtain ⟨hm, tn, htn, htp, htpart, hlast⟩ := hs2
    obtain ⟨hnext, -⟩ := hlast
    have hea : e.1 ≠ a := by
      rintro rfl
      rw [hfresh] at htn
      cases htn
    have he_notin : e.1 ∉ l1.map Prod.fst := by
      rw [List.map_append, List.nodup_append] at hnd
      intro hmem
      exact hnd.2.2 hmem (by simp)
    have ha_notin1 : a ∉ l1.map Prod.fst := by
      intro hmem
      exact ha_notin (by rw [List.map_append]; exact List.mem_append_left _ hmem)
    simp only [linkNode, beq_iff_eq, hsz, if_false, ht, Function.update_noteq hea, htn]
    refine ⟨_, rfl, ⟨?_, ?_⟩, ?_⟩
    · rw [List.append_assoc, Seg_append]
      refine ⟨m, t1, ?_, ?_⟩
      · exact Seg_update_of_not_mem _ he_notin (Seg_update_of_not_mem _ ha_notin1 hs1)
      · refine ⟨hm, _, Function.update_same _ _ _, htp, htpart, rfl,
          { next := none, prev := some e.1, particle := particle }, ?_, rfl, rfl, rfl, rfl⟩
        dsimp only
        rw [Function.update_noteq hea.symm, Function.update_same]
    · simp only [hsize, List.length_append, List.length_singleton, Nat.cast_add, Nat.cast_one]
    · rfl

theorem unlinkNode_spec {s : Sim} {l1 l2 : List (Nat × Particle)} {e : Nat × Particle}
    (hseg : Seg s.heap none s.particleList.head (l1 ++ e :: l2) none s.particleList.tail) :
    ∃ s2, unlinkNode e.1 s = some s2 ∧
      Seg s2.heap none s2.particleList.head (l1 ++ l2) none s2.particleList.tail ∧
      s2.particleList.size = s.particleList.size - 1 ∧ SameGlobals s s2 := by
  have hnd := Seg_nodup hseg
  obtain ⟨m, t1, hs1, hs2⟩ := Seg_append.1 hseg
  obtain ⟨hm, n, hn, hp, hpart, hrest⟩ := hs2
  subst hm
  rw [List.map_append, List.map_cons, List.nodup_append, List.nodup_cons] at hnd
  obtain ⟨hnd1, ⟨he2, hnd2⟩, hdisj⟩ := hnd
  have he1 : e.1 ∉ l1.map Prod.fst := fun hmem => hdisj hmem (List.mem_cons_self _ _)
  rcases list_nil_or_snoc l1 with h1 | ⟨l0, e0, h1⟩
  · subst h1
    obtain ⟨hhead, ht1⟩ := hs1
    subst ht1
    cases l2 with
    | nil =>
      obtain ⟨hnext, htail⟩ := hrest
      simp only [unlinkNode, hn, hp, hnext]
      exact ⟨_, rfl, ⟨rfl, rfl⟩, rfl, rfl⟩
    | cons e2 l3 =>
      obtain ⟨hnext, n2, hn2, hp2, hpart2, hrest2⟩ := hrest
      have h2e : e2.1 ≠ e.1 := by
        intro h
        exact he2 (by rw [List.map_cons, ← h]; exact List.mem_cons_self _ _)
      have h2l3 : e2.1 ∉ l3.map Prod.fst := by
        rw [List.map_cons, List.nodup_cons] at hnd2
        exact hnd2.1
      have hel3 : e.1 ∉ l3.map Prod.fst := by
        intro hmem
        exact he2 (by rw [List.map_cons]; exact List.mem_cons_of_mem _ hmem)
      simp only [unlinkNode, hn, hp, hnext, hn2]
      refine ⟨_, rfl, ?_, rfl, rfl⟩
      refine ⟨rfl, { n2 with prev := none }, ?_, rfl, hpart2, ?_⟩
      · show Function.update (Function.update s.heap e2.1 _) e.1 none e2.1 = _
        rw [Function.update_noteq h2e, Function.update_same]
      · exact Seg_update_of_not_mem _ hel3 (Seg_update_of_not_mem _ h2l3 hrest2)
  · subst h1
    obtain ⟨m0, t0, hs0, hs01⟩ := Seg_append.1 hs1
    obtain ⟨hm0, n0, hn0, hp0, hpart0, hnext0, ht1⟩ := hs01
    subst ht1
    have h0e : e0.1 ≠ e.1 := by
      intro h
      exact he1 (by rw [List.map_append, ← h]; simp)
    have h0l0 : e0.1 ∉ l0.map Prod.fst := by
      rw [List.map_append, List.nodup_append] at hnd1
      intro hmem
      exact hnd1.2.2 hmem (by simp)
    have hel0 : e.1 ∉ l0.map Prod.fst := by
      intro hmem
      exact he1 (by rw [List.map_append]; exact List.mem_append_left _ hmem)
    have h0l2 : e0.1 ∉ l2.map Prod.fst := by
      intro hmem
      exact hdisj (by rw [List.map_append]; simp) (List.mem_cons_of_mem _ hmem)
    cases l2 with
    | nil =>
      obtain ⟨hnext, htail⟩ := hrest
      simp only [unlinkNode, hn, hp, hnext, hn0, Function.update_noteq h0e.symm]
      refine ⟨_, rfl, ?_, rfl, rfl⟩
      rw [List.append_nil, Seg_append]
      refine ⟨m0, t0, ?_, hm0, { n0 with next := none }, ?_, hp0, hpart0, rfl, rfl⟩
      · exact Seg_update_of_not_mem _ hel0 (Seg_update_of_not_mem _ h0l0 hs0)
      · show Function.update (Function.update s.heap e0.1 _) e.1 none e0.1 = _
        rw [Function.update_noteq h0e, Function.update_same]
    | cons e2 l3 =>
      obtain ⟨hnext, n2, hn2, hp2, hpart2, hrest2⟩ := hrest
      have h2e : e2.1 ≠ e.1 := by
        intro h
        exact he2 (by rw [List.map_cons, ← h]; exact List.mem_cons_self _ _)
      have h2l3 : e2.1 ∉ l3.map Prod.fst := by
        rw [List.map_cons, List.nodup_cons] at hnd2
        exact hnd2.1
      have hel3 : e.1 ∉ l3.map Prod.fst := by
        intro hmem
        exact he2 (by rw [List.map_cons]; exact List.mem_cons_of_mem _ hmem)
      have h20 : e2.1 ≠ e0.1 := by
        intro h
        exact h0l2 (by rw [List.map_cons, ← h]; exact List.mem_cons_self _ _)
      have h2l0 : e2.1 ∉ l0.map Prod.fst := by
        intro hmem
        exact hdisj (by rw [List.map_append]; exact List.mem_append_left _ hmem)
          (by simp)
      have h0l3 : e0.1 ∉ l3.map Prod.fst := by
        intro hmem
        exact h0l2 (by rw [List.map_cons]; exact List.mem_cons_of_mem _ hmem)
      simp only [unlinkNode, hn, hp, hnext, hn0, hn2, Function.update_noteq h0e.symm,
        Function.update_noteq h20]
      refine ⟨_, rfl, ?_, rfl, rfl⟩
      rw [List.append_assoc, Seg_append]
      refine ⟨m0, t0, ?_, hm0, { n0 with next := some e2.1 }, ?_, hp0, hpart0, rfl,
        { n2 with prev := some e0.1 }, ?_, rfl, hpart2, ?_⟩
      · exact Seg_update_of_not_mem _ hel0 (Seg_update_of_not_mem _ h2l0
          (Seg_update_of_not_mem _ h0l0 hs0))
      · show Function.update (Function.update (Function.update s.heap e0.1 _) e2.1 _) e.1 none
          e0.1 = _
        rw [Function.update_noteq h0e, Function.update_noteq h20.symm, Function.update_same]
      · show Function.update (Function.update (Function.update s.heap e0.1 _) e2.1 _) e.1 none
          e2.1 = _
        rw [Function.update_noteq h2e, Function.update_same]
      · exact Seg_update_of_not_mem _ hel3 (Seg_update_of_not_mem _ h2l3
          (Seg_update_of_not_mem _ h0l3 hrest2))

theorem removeInactiveLoop_spec (rest : List (Nat × Particle)) :
    ∀ (kept : List (Nat × Particle)) (s : Sim) (fuel : Nat),
      Seg s.heap none s.particleList.head (kept ++ rest) none s.particleList.tail →
      rest.length ≤ fuel →
      ∃ s2, removeInactiveLoop fuel (headPtr rest none) s = some s2 ∧
        Seg s2.heap none s2.particleList.head (kept ++ rest.filter (fun e => e.2.active)) none
          s2.particleList.tail ∧
        s2.particleList.size = s.particleList.size -
          ((rest.length : Int) - ((rest.filter (fun e => e.2.active)).length : Int)) ∧
        SameGlobals s s2 := by
  induction rest with
  | nil =>
    intro kept s fuel hseg _
    refine ⟨s, ?_, by simpa using hseg, by simp, SameGlobals.refl s⟩
    cases fuel <;> rfl
  | cons e rest ih =>
    intro kept s fuel hseg hfuel
    obtain ⟨n, hn, hpart, -, hnext⟩ := Seg_mid hseg
    cases fuel with
    | zero => simp at hfuel
    | succ fuel =>
      have hfuel2 : rest.length ≤ fuel := by simpa using hfuel
      by_cases hact : e.2.active = true
      · have hseg2 : Seg s.heap none s.particleList.head ((kept ++ [e]) ++ rest) none
            s.particleList.tail := by simpa using hseg
        obtain ⟨s2, h1, h2, h3, h4⟩ := ih (kept ++ [e]) s fuel hseg2 hfuel2
        refine ⟨s2, ?_, ?_, ?_, h4⟩
        · simp only [headPtr, removeInactiveLoop, hn, hpart, hact, hnext]
          simpa using h1
        · simpa [List.filter_cons, hact] using h2
        · rw [h3]
          simp [List.filter_cons, hact]
      · obtain ⟨s1, hu1, hu2, hu3, hu4⟩ := unlinkNode_spec hseg
        obtain ⟨s2, h1, h2, h3, h4⟩ := ih kept s1 fuel hu2 hfuel2
        refine ⟨s2, ?_, ?_, ?_, hu4.trans h4⟩
        · simp only [headPtr, removeInactiveLoop, hn, hpart, hact, hnext, hu1]
          simpa using h1
        · simpa [List.filter_cons, hact] using h2
        · rw [h3, hu3]
          simp [List.filter_cons, hact]
          ring

theorem removeInactiveParticles_spec {s : Sim} {l : List (Nat × Particle)} {fuel : Nat}
    (hr : Rep s l) (hfuel : l.length ≤ fuel) :
    ∃ s2, removeInactiveParticles fuel s = some s2 ∧
      Rep s2 (l.filter (fun e => e.2.active)) ∧ SameGlobals s s2 := by
  obtain ⟨hseg, hsize⟩ := hr
  obtain ⟨s2, h1, h2, h3, h4⟩ := removeInactiveLoop_spec l [] s fuel hseg hfuel
  refine ⟨s2, ?_, ⟨h2, ?_⟩, h4⟩
  · unfold removeInactiveParticles
    rw [Seg_head hseg]
    exact h1
  · rw [h3, hsize]
    ring

/-- Replacing the particle a node holds keeps the links of the segment. -/
theorem Seg_update_particle {h : Heap} {l1 l2 : List (Nat × Particle)} {e : Nat × Particle}
    {p c t : Option Nat} {n : ParticleNode} (hs : Seg h p c (l1 ++ e :: l2) none t)
    (hn : h e.1 = some n) (particle : Particle) :
    Seg (Function.update h e.1 (some { n with particle := particle })) p c
      (l1 ++ (e.1, particle) :: l2) none t := by
  have hnd := Seg_nodup hs
  rw [List.map_append, List.map_cons, List.nodup_append, List.nodup_cons] at hnd
  obtain ⟨-, ⟨he2, -⟩, hdisj⟩ := hnd
  have he1 : e.1 ∉ l1.map Prod.fst := fun hmem => hdisj hmem (List.mem_cons_self _ _)
  obtain ⟨m, t1, hs1, hs2⟩ := Seg_append.1 hs
  obtain ⟨hm, n2, hn2, hp, -, hrest⟩ := hs2
  rw [hn] at hn2
  cases hn2
  rw [Seg_append]
  exact ⟨m, t1, Seg_update_of_not_mem _ he1 hs1, hm, _, Function.update_same _ _ _, hp, rfl,
    Seg_update_of_not_mem _ he2 hrest⟩

theorem updateLoop_spec (rest : List (Nat × Particle)) :
    ∀ (done : List (Nat × Particle)) (s : Sim) (fuel : Nat),
      Seg s.heap none s.particleList.head (done ++ rest) none s.particleList.tail →
      rest.length ≤ fuel →
      ∃ s2, updateLoop fuel (headPtr rest none) s = some s2 ∧
        Seg s2.heap none s2.particleList.head
          (done ++ rest.map (fun e => (e.1, updateParticle s.randomSpinMode s.frictionMode e.2)))
          none s2.particleList.tail ∧
        s2.particleList = s.particleList ∧ SameGlobals s s2 := by
  induction rest with
  | nil =>
    intro done s fuel hseg _
    refine ⟨s, ?_, by simpa using hseg, rfl, SameGlobals.refl s⟩
    cases fuel <;> rfl
  | cons e rest ih =>
    intro done s fuel hseg hfuel
    obtain ⟨n, hn, hpart, -, hnext⟩ := Seg_mid hseg
    cases fuel with
    | zero => simp at hfuel
    | succ fuel =>
      have hfuel2 : rest.length ≤ fuel := by simpa using hfuel
      have hseg1 := Seg_update_particle hseg hn
        (updateParticle s.randomSpinMode s.frictionMode e.2)
      rw [show ∀ x : Nat × Particle, done ++ x :: rest = (done ++ [x]) ++ rest from
        fun x => by simp] at hseg1
      obtain ⟨s2, h1, h2, h3, h4⟩ := ih _
        { s with
          heap := Function.update s.heap e.1
            (some { n with particle := updateParticle s.randomSpinMode s.frictionMode e.2 }) }
        fuel hseg1 hfuel2
      refine ⟨s2, ?_, ?_, h3, ?_⟩
      · rw [← hnext] at h1
        rw [show headPtr (e :: rest) none = some e.1 from rfl]
        simp only [updateLoop, hn, hpart]
        exact h1
      · simpa using h2
      · exact h4

theorem Entries_update_of_not_mem {h : Heap} {l : List (Nat × Particle)} {c : Option Nat}
    {a : Nat} (v : Option ParticleNode) (ha : a ∉ l.map Prod.fst) (hs : Entries h c l) :
    Entries (Function.update h a v) c l := by
  induction l generalizing c with
  | nil => exact hs
  | cons x l ih =>
    obtain ⟨hc, n, hn, hpart, hrest⟩ := hs
    rw [List.map_cons, List.mem_cons, not_or] at ha
    refine ⟨hc, n, ?_, hpart, ih ha.2 hrest⟩
    rw [Function.update_noteq (Ne.symm ha.1)]
    exact hn

theorem resetLoop_spec (l : List (Nat × Particle)) :
    ∀ (h : Heap) (c : Option Nat) (fuel : Nat),
      Entries h c l → l.length ≤ fuel →
      ∃ h2, resetLoop fuel c h = some h2 ∧ (∀ e ∈ l, h2 e.1 = none) ∧
        (∀ a, a ∉ l.map Prod.fst → h2 a = h a) := by
  induction l with
  | nil =>
    intro h c fuel he _
    have hc : c = none := he
    subst hc
    refine ⟨h, ?_, by simp, fun _ _ => rfl⟩
    cases fuel <;> rfl
  | cons e l ih =>
    intro h c fuel he hfuel
    have hnd := Entries_nodup he
    rw [List.map_cons, List.nodup_cons] at hnd
    obtain ⟨hc, n, hn, hpart, hrest⟩ := he
    subst hc
    cases fuel with
    | zero => simp at hfuel
    | succ fuel =>
      have hfuel2 : l.length ≤ fuel := by simpa using hfuel
      have hrest2 : Entries (Function.update h e.1 none) n.next l :=
        Entries_update_of_not_mem none hnd.1 hrest
      obtain ⟨h2, h1, hfree, hframe⟩ := ih (Function.update h e.1 none) n.next fuel hrest2 hfuel2
      refine ⟨h2, ?_, ?_, ?_⟩
      · simp only [resetLoop, hn]
        exact h1
      · intro x hx
        rcases List.mem_cons.1 hx with rfl | hx
        · rw [hframe _ hnd.1, Function.update_same]
        · exact hfree x hx
      · intro a ha
        rw [List.map_cons, List.mem_cons, not_or] at ha
        rw [hframe a ha.2, Function.update_noteq ha.1]

theorem SameGlobals.flags {s s2 : Sim} (h : SameGlobals s s2) : SameFlags s s2 := by
  unfold SameGlobals at h
  rw [h]
  exact ⟨rfl, rfl, rfl, rfl, rfl, rfl⟩

theorem newParticle_frame (s : Sim) :
    (newParticle s).2.heap = s.heap ∧ (newParticle s).2.particleList = s.particleList ∧
      SameFlags s (newParticle s).2 := by
  unfold newParticle rand
  cases hsp : s.randomSpeedMode <;> simp [hsp, SameFlags]

theorem createParticle_spec {s : Sim} {l : List (Nat × Particle)} (a : Nat)
    (hr : Rep s l) (hfresh : s.heap a = none) :
    ∃ s2, createParticle (some a) s = some s2 ∧ Rep s2 (l ++ [(a, (newParticle s).1)]) ∧
      SameFlags s s2 := by
  obtain ⟨hheap, hlist, hflags⟩ := newParticle_frame s
  have hr2 : Rep (newParticle s).2 l := by
    unfold Rep
    rw [hheap, hlist]
    exact hr
  obtain ⟨s2, h1, h2, h3⟩ := linkNode_spec a (newParticle s).1 hr2 (by rw [hheap]; exact hfresh)
  refine ⟨s2, h1, h2, ?_⟩
  obtain ⟨f1, f2, f3, f4, f5, f6⟩ := hflags
  obtain ⟨g1, g2, g3, g4, g5, g6⟩ := h3.flags
  exact ⟨g1.trans f1, g2.trans f2, g3.trans f3, g4.trans f4, g5.trans f5, g6.trans f6⟩

theorem removeInactiveLoop_mono {fuel : Nat} :
    ∀ {fuel2 : Nat} {c : Option Nat} {s s2 : Sim}, removeInactiveLoop fuel c s = some s2 →
      fuel ≤ fuel2 → removeInactiveLoop fuel2 c s = some s2 := by
  induction fuel with
  | zero =>
    intro fuel2 c s s2 h _
    cases c with
    | none =>
      cases fuel2 <;> exact h
    | some a => simp [removeInactiveLoop] at h
  | succ fuel ih =>
    intro fuel2 c s s2 h hle
    cases fuel2 with
    | zero => omega
    | succ fuel2 =>
      have hle2 : fuel ≤ fuel2 := by omega
      cases c with
      | none => exact h
      | some a =>
        simp only [removeInactiveLoop] at h ⊢
        cases hn : s.heap a with
        | none => rw [hn] at h; cases h
        | some cur =>
          rw [hn] at h
          dsimp only at h ⊢
          split at h
          · cases hu : unlinkNode a s with
            | none => rw [hu] at h; cases h
            | some s1 =>
              rw [hu] at h
              dsimp only at h ⊢
              rw [if_pos (by assumption)]
              exact ih h hle2
          · rw [if_neg (by assumption)]
            exact ih h hle2

theorem updateLoop_mono {fuel : Nat} :
    ∀ {fuel2 : Nat} {c : Option Nat} {s s2 : Sim}, updateLoop fuel c s = some s2 →
      fuel ≤ fuel2 → updateLoop fuel2 c s = some s2 := by
  induction fuel with
  | zero =>
    intro fuel2 c s s2 h _
    cases c with
    | none =>
      cases fuel2 <;> exact h
    | some a => simp [updateLoop] at h
  | succ fuel ih =>
    intro fuel2 c s s2 h hle
    cases fuel2 with
    | zero => omega
    | succ fuel2 =>
      have hle2 : fuel ≤ fuel2 := by omega
      cases c with
      | none => exact h
      | some a =>
        simp only [updateLoop] at h ⊢
        cases hn : s.heap a with
        | none => rw [hn] at h; cases h
        | some cur =>
          rw [hn] at h
          exact ih h hle2

theorem resetLoop_mono {fuel : Nat} :
    ∀ {fuel2 : Nat} {c : Option Nat} {h h2 : Heap}, resetLoop fuel c h = some h2 →
      fuel ≤ fuel2 → resetLoop fuel2 c h = some h2 := by
  induction fuel with
  | zero =>
    intro fuel2 c h h2 hr _
    cases c with
    | none =>
      cases fuel2 <;> exact hr
    | some a => simp [resetLoop] at hr
  | succ fuel ih =>
    intro fuel2 c h h2 hr hle
    cases fuel2 with
    | zero => omega
    | succ fuel2 =>
      have hle2 : fuel ≤ fuel2 := by omega
      cases c with
      | none => exact hr
      | some a =>
        simp only [resetLoop] at hr ⊢
        cases hn : h a with
        | none => rw [hn] at hr; cases hr
        | some cur =>
          rw [hn] at hr
          exact ih hr hle2

theorem updateFrame_spec {s : Sim} {l : List (Nat × Particle)} {fuel : Nat}
    (hr : Rep s l) (hfuel : l.length ≤ fuel) :
    ∃ s2, updateFrame fuel s = some s2 ∧
      Rep s2 ((l.map (fun e => (e.1, updateParticle s.randomSpinMode s.frictionMode e.2))).filter
        (fun e => e.2.active)) ∧ SameGlobals s s2 := by
  obtain ⟨hseg, hsize⟩ := hr
  obtain ⟨s1, h1, h2, h3, h4⟩ := updateLoop_spec l [] s fuel hseg hfuel
  have hr1 : Rep s1 (l.map (fun e => (e.1, updateParticle s.randomSpinMode s.frictionMode e.2))) :=
    ⟨h2, by rw [h3, hsize]; simp⟩
  obtain ⟨s2, g1, g2, g3⟩ := removeInactiveParticles_spec hr1 (by simpa using hfuel)
  refine ⟨s2, ?_, g2, h4.trans g3⟩
  unfold updateFrame
  rw [Seg_head hseg, h1]
  exact g1

theorem resetSimulation_spec {s : Sim} {l : List (Nat × Particle)} {fuel : Nat}
    (hr : Rep s l) (hfuel : l.length ≤ fuel) :
    ∃ s2, resetSimulation fuel s = some s2 ∧ Rep s2 [] ∧
      s2.constantStream = true ∧ s2.manualFiring = false ∧ s2.randomSpinMode = true ∧
      s2.frictionMode = true ∧ s2.sprayMode = false ∧
      s2.randomSpeedMode = s.randomSpeedMode ∧ (∀ e ∈ l, s2.heap e.1 = none) := by
  obtain ⟨h2, h1, hfree, -⟩ :=
    resetLoop_spec l s.heap s.particleList.head fuel (Seg_entries hr.1) hfuel
  unfold resetSimulation
  rw [h1]
  exact ⟨_, rfl, ⟨⟨rfl, rfl⟩, rfl⟩, rfl, rfl, rfl, rfl, rfl, rfl, hfree⟩

theorem groundHit_iff (p : Particle) :
    groundHit p = true ↔
      (-0.1 < p.py ∧ p.py < 0.1 ∧ -15 ≤ p.px ∧ p.px ≤ 15 ∧ -15 ≤ p.pz ∧ p.pz ≤ 15 ∧
        ¬ (5 ≤ p.px ∧ p.px ≤ 10 ∧ 5 ≤ p.pz ∧ p.pz ≤ 10)) := by
  simp only [groundHit, isParticleWithinGroundExtents, isParticleWithinHoleExtents, GROUND_SIZE,
    Bool.and_eq_true, decide_eq_true_eq, Bool.not_eq_eq_eq_not, Bool.not_true,
    decide_eq_false_iff_not, ge_iff_le,
    gt_iff_lt]
  norm_num
  tauto

theorem sampleStore_rep : Rep sampleStore sampleEntries :=
  ⟨⟨rfl, _, rfl, rfl, rfl, rfl, _, rfl, rfl, rfl, rfl, _, rfl, rfl, rfl, rfl, rfl⟩, rfl⟩

theorem sampleStore_wellFormed : WellFormed sampleStore := WellFormed_of_Rep sampleStore_rep

theorem sampleStore_entries :
    Entries sampleStore.heap sampleStore.particleList.head sampleEntries :=
  Seg_entries sampleStore_rep.1

theorem newParticle_active (s : Sim) : (newParticle s).1.active = true := by
  unfold newParticle rand
  cases hsp : s.randomSpeedMode <;> simp [hsp]

theorem updateFrame_mono {fuel fuel2 : Nat} {s s2 : Sim} (h : updateFrame fuel s = some s2)
    (hle : fuel ≤ fuel2) : updateFrame fuel2 s = some s2 := by
  unfold updateFrame at h ⊢
  cases h1 : updateLoop fuel s.particleList.head s with
  | none => rw [h1] at h; cases h
  | some s1 =>
    rw [h1] at h
    rw [updateLoop_mono h1 hle]
    exact removeInactiveLoop_mono h hle

theorem resetSimulation_mono {fuel fuel2 : Nat} {s s2 : Sim}
    (h : resetSimulation fuel s = some s2) (hle : fuel ≤ fuel2) :
    resetSimulation fuel2 s = some s2 := by
  unfold resetSimulation at h ⊢
  cases h1 : resetLoop fuel s.particleList.head s.heap with
  | none => rw [h1] at h; cases h
  | some s1 =>
    rw [h1] at h
    rw [resetLoop_mono h1 hle]
    exact h

theorem updateFrame_allActive {s s2 : Sim} {l : List (Nat × Particle)} {fuel : Nat}
    (hr : Rep s l) (h : updateFrame fuel s = some s2) : AllActive s2 := by
  obtain ⟨s3, h3, hr3, -⟩ := updateFrame_spec hr (le_max_right fuel l.length)
  rw [updateFrame_mono h (le_max_left fuel l.length)] at h3
  cases h3
  refine ⟨_, hr3, ?_⟩
  intro e he
  exact (List.mem_filter.1 he).2

theorem createParticle_allActive {s s2 : Sim} {newNode : Option Nat} (ha : AllActive s)
    (hfresh : ∀ a, newNode = some a → s.heap a = none)
    (h : createParticle newNode s = some s2) : AllActive s2 := by
  obtain ⟨l, hr, hact⟩ := ha
  cases newNode with
  | none => cases h
  | some a =>
    obtain ⟨s3, h3, hr3, -⟩ := createParticle_spec a hr (hfresh a rfl)
    rw [h] at h3
    cases h3
    refine ⟨_, hr3, ?_⟩
    intro e he
    rcases List.mem_append.1 he with he | he
    · exact hact e he
    · rw [List.mem_singleton] at he
      subst he
      exact newParticle_active s

theorem timerFunc_allActive {s s2 : Sim} {newNode : Option Nat} {fuel : Nat} (ha : AllActive s)
    (hfresh : ∀ a, newNode = some a → s.heap a = none)
    (h : timerFunc newNode fuel s = some s2) : AllActive s2 := by
  unfold timerFunc at h
  split at h
  · cases h1 : createParticle newNode s with
    | none => rw [h1] at h; cases h
    | some s1 =>
      rw [h1] at h
      obtain ⟨l1, hr1, -⟩ := createParticle_allActive ha hfresh h1
      exact updateFrame_allActive hr1 h
  · obtain ⟨l, hr, -⟩ := ha
    exact updateFrame_allActive hr h

theorem keyboard_allActive {s s2 : Sim} {k : Key} {newNode : Option Nat} {fuel : Nat}
    (ha : AllActive s) (hfresh : ∀ a, newNode = some a → s.heap a = none)
    (h : keyboard k newNode fuel s = some s2) : AllActive s2 := by
  cases k
  case f =>
    unfold keyboard at h
    dsimp only at h
    split at h
    · exact createParticle_allActive ha hfresh h
    · cases h; exact ha
  case t =>
    obtain ⟨l, hr, -⟩ := ha
    have h0 : resetSimulation fuel s = some s2 := h
    obtain ⟨s3, h3, hr3, -⟩ := resetSimulation_spec hr (le_max_right fuel l.length)
    rw [resetSimulation_mono h0 (le_max_left fuel l.length)] at h3
    cases h3
    exact ⟨[], hr3, fun e he => by cases he⟩
  all_goals
    cases h
    exact ha

theorem Reachable.allActive {s : Sim} (h : Reachable s) : AllActive s := by
  induction h with
  | init rng => exact ⟨[], ⟨⟨rfl, rfl⟩, rfl⟩, fun e he => by cases he⟩
  | tick newNode fuel _ hfresh hstep ih => exact timerFunc_allActive ih hfresh hstep
  | key k newNode fuel _ hfresh hstep ih => exact keyboard_allActive ih hfresh hstep

theorem timerFunc_returns {s : Sim} {l : List (Nat × Particle)} (a : Nat) (hr : Rep s l)
    (hfresh : s.heap a = none) :
    ∃ s2, timerFunc (some a) (s.particleList.size.toNat + 1) s = some s2 := by
  have hlen : s.particleList.size.toNat = l.length := by
    rw [hr.2]; simp
  unfold timerFunc
  split
  · obtain ⟨s1, h1, hr1, -⟩ := createParticle_spec a hr hfresh
    rw [h1]
    obtain ⟨s2, h2, -⟩ := @updateFrame_spec _ _ (s.particleList.size.toNat + 1) hr1
      (by rw [hlen]; simp)
    exact ⟨s2, h2⟩
  · obtain ⟨s2, h2, -⟩ := @updateFrame_spec _ _ (s.particleList.size.toNat + 1) hr
      (by rw [hlen]; omega)
    exact ⟨s2, h2⟩

theorem applyFriction_active (p : Particle) : (applyFriction p).active = p.active := rfl

theorem handleGroundCollision_active (f : Bool) (p : Particle) :
    (handleGroundCollision f p).active = p.active := by
  unfold handleGroundCollision
  cases f <;> cases groundHit p <;> rfl

theorem handleSphereCollision_active (f : Bool) (p : Particle) :
    (handleSphereCollision f p).active = p.active := by
  unfold handleSphereCollision
  cases f <;> cases sphereHit p <;> rfl

theorem advanceCollide_active (f : Bool) (p : Particle) :
    (advanceCollide f p).active = p.active := by
  unfold advanceCollide
  rw [handleSphereCollision_active, handleGroundCollision_active]
  rfl

theorem spin_active (r : Bool) (p : Particle) : (spin r p).active = p.active := by
  unfold spin
  cases r <;> rfl

theorem markInactive_active (p : Particle) :
    (markInactive p).active = true ↔ p.active = true ∧ p.speed ≥ 0.1 ∧ p.py ≥ -75.0 := by
  unfold markInactive
  by_cases h1 : p.speed < 0.1 <;> by_cases h2 : p.py < -75.0 <;>
    simp [h1, h2, not_lt.1, le_of_lt]

theorem updateParticle_active (r f : Bool) (p : Particle) (hp : p.active = true) :
    (updateParticle r f p).active = true ↔
      (advanceCollide f p).speed ≥ 0.1 ∧ (advanceCollide f p).py ≥ -75.0 := by
  unfold updateParticle
  rw [if_pos hp, spin_active, markInactive_active, advanceCollide_active, hp]
  simp

theorem natMod_cast_bounds (r k : Nat) (hk : 0 < k) :
    (0 : ℚ) ≤ ((r % k : Nat) : ℚ) ∧ ((r % k : Nat) : ℚ) + 1 ≤ (k : ℚ) := by
  refine ⟨Nat.cast_nonneg _, ?_⟩
  have h2 : r % k + 1 ≤ k := Nat.mod_lt r hk
  exact_mod_cast h2

theorem mod100_bounds (r : Nat) :
    (0 : ℚ) ≤ ((r % 100 : Nat) : ℚ) / 100 ∧ ((r % 100 : Nat) : ℚ) / 100 < 1 ∧
      ((r % 100 : Nat) : ℚ) / 100 ≤ 1 := by
  obtain ⟨h1, h2⟩ := natMod_cast_bounds r 100 (by norm_num)
  push_cast at h2
  refine ⟨by positivity, ?_, ?_⟩
  · rw [div_lt_one (by norm_num)]; linarith
  · rw [div_le_one (by norm_num)]; linarith

theorem mod200_bounds (r : Nat) :
    (0 : ℚ) ≤ ((r % 200 : Nat) : ℚ) / 100 ∧ ((r % 200 : Nat) : ℚ) / 100 ≤ 2 := by
  obtain ⟨h1, h2⟩ := natMod_cast_bounds r 200 (by norm_num)
  push_cast at h2
  refine ⟨by positivity, ?_⟩
  rw [div_le_iff₀ (by norm_num)]; linarith

theorem mod10_bounds (r : Nat) :
    (0 : ℚ) ≤ ((r % 10 : Nat) : ℚ) / 10 ∧ 1 + ((r % 10 : Nat) : ℚ) / 10 < 2 := by
  obtain ⟨h1, h2⟩ := natMod_cast_bounds r 10 (by norm_num)
  push_cast at h2
  refine ⟨by positivity, ?_⟩
  have : ((r % 10 : Nat) : ℚ) / 10 < 1 := by
    rw [div_lt_one (by norm_num)]; linarith
  linarith

theorem newParticle_ranges (s : Sim) :
    (s.sprayMode = false →
      -0.5 ≤ (newParticle s).1.dx ∧ (newParticle s).1.dx ≤ 0.5 ∧
      -0.5 ≤ (newParticle s).1.dz ∧ (newParticle s).1.dz ≤ 0.5) ∧
    (s.sprayMode = true →
      -1.0 ≤ (newParticle s).1.dx ∧ (newParticle s).1.dx ≤ 1.0 ∧
      -1.0 ≤ (newParticle s).1.dz ∧ (newParticle s).1.dz ≤ 1.0) ∧
    (s.randomSpeedMode = false → (newParticle s).1.speed = 1.0) ∧
    (s.randomSpeedMode = true →
      1.0 ≤ (newParticle s).1.speed ∧ (newParticle s).1.speed < 2.0) ∧
    (0 ≤ (newParticle s).1.color0 ∧ (newParticle s).1.color0 < 1) ∧
    (0 ≤ (newParticle s).1.color1 ∧ (newParticle s).1.color1 < 1) ∧
    (0 ≤ (newParticle s).1.color2 ∧ (newParticle s).1.color2 < 1) ∧
    (newParticle s).1.active = true := by
  unfold newParticle rand
  cases hsp : s.randomSpeedMode <;> cases hspray : s.sprayMode <;>
    simp only [hsp, hspray] <;> norm_num <;>
    simp [mod100_bounds, mod200_bounds, mod10_bounds]

theorem activeStore_rep : Rep activeStore activeEntries :=
  ⟨⟨rfl, _, rfl, rfl, rfl, rfl, _, rfl, rfl, rfl, rfl, rfl⟩, rfl⟩

theorem sampleLanding_groundHit : groundHit (integrate sampleLanding) = true := by
  rw [groundHit_iff]
  norm_num [integrate, sampleLanding, sampleParticle, GRAVITY, SPEED_FACTOR]

theorem activeEntries_active : ∀ e ∈ activeEntries, e.2.active = true := by
  intro e he
  simp only [activeEntries, List.mem_cons, List.mem_singleton, List.not_mem_nil, or_false] at he
  rcases he with rfl | rfl <;> rfl

theorem sampleLanding_advanceCollide :
    (advanceCollide true sampleLanding).speed = 0.9 ∧
      (advanceCollide true sampleLanding).py = 0.1 := by
  decide!

theorem sampleFalling_advanceCollide :
    (advanceCollide true sampleFalling).py = -75.0905 := by
  decide!

theorem fmod_bounds (x : ℚ) (hx : 0 ≤ x) : 0 ≤ fmod x 360.0 ∧ fmod x 360.0 < 360 := by
  have h360 : (360.0 : ℚ) = 360 := by norm_num
  have hq : 0 ≤ x / 360 := div_nonneg hx (by norm_num)
  unfold fmod
  rw [h360, if_pos hq]
  have h1 := Int.floor_le (x / 360)
  have h2 := Int.lt_floor_add_one (x / 360)
  have e : x = 360 * (x / 360) := by field_simp
  constructor
  · nlinarith
  · nlinarith

theorem handleGroundCollision_sameSpin (f : Bool) (p : Particle) :
    SameSpin p (handleGroundCollision f p) := by
  unfold handleGroundCollision
  cases f <;> cases groundHit p <;> exact ⟨rfl, rfl, rfl, rfl, rfl, rfl⟩

theorem handleSphereCollision_sameSpin (f : Bool) (p : Particle) :
    SameSpin p (handleSphereCollision f p) := by
  unfold handleSphereCollision
  cases f <;> cases sphereHit p <;> exact ⟨rfl, rfl, rfl, rfl, rfl, rfl⟩

theorem markInactive_sameSpin (p : Particle) : SameSpin p (markInactive p) := by
  unfold markInactive
  by_cases h1 : p.speed < 0.1 <;> by_cases h2 : p.py < -75.0 <;>
    simp [h1, h2, SameSpin]

theorem SameSpin_compose {p q r : Particle} (h1 : SameSpin p q) (h2 : SameSpin q r) :
    SameSpin p r := by
  rcases h1 with ⟨hx, hy, hz, hdx, hdy, hdz⟩
  rcases h2 with ⟨kx, ky, kz, kdx, kdy, kdz⟩
  refine ⟨?_, ?_, ?_, ?_, ?_, ?_⟩
  · rw [kx, hx]
  · rw [ky, hy]
  · rw [kz, hz]
  · rw [kdx, hdx]
  · rw [kdy, hdy]
  · rw [kdz, hdz]

theorem markInactive_advanceCollide_sameSpin (f : Bool) (p : Particle) :
    SameSpin p (markInactive (advanceCollide f p)) := by
  have h0 : SameSpin p (integrate p) := ⟨rfl, rfl, rfl, rfl, rfl, rfl⟩
  unfold advanceCollide
  exact SameSpin_compose (SameSpin_compose (SameSpin_compose h0
    (handleGroundCollision_sameSpin f _)) (handleSphereCollision_sameSpin f _))
    (markInactive_sameSpin _)

theorem spin_angleInv (r : Bool) (p : Particle) (h : AngleInv p) : AngleInv (spin r p) := by
  cases r
  · exact h
  · obtain ⟨⟨x0, x1⟩, ⟨y0, y1⟩, ⟨z0, z1⟩, dx, dy, dz⟩ := h
    unfold spin
    refine ⟨?_, ?_, ?_, dx, dy, dz⟩
    · exact fmod_bounds _ (by show 0 ≤ p.angleX + p.dAngleX; rw [dx]; linarith)
    · exact fmod_bounds _ (by show 0 ≤ p.angleY + p.dAngleY; rw [dy]; linarith)
    · exact fmod_bounds _ (by show 0 ≤ p.angleZ + p.dAngleZ; rw [dz]; linarith)

theorem AngleInv_of_sameSpin {p q : Particle} (hs : SameSpin p q) (h : AngleInv p) :
    AngleInv q := by
  rcases hs with ⟨hx, hy, hz, hdx, hdy, hdz⟩
  unfold AngleInv
  rw [hx, hy, hz, hdx, hdy, hdz]
  exact h

theorem updateParticle_angleInv (r f : Bool) (p : Particle) (h : AngleInv p) :
    AngleInv (updateParticle r f p) := by
  unfold updateParticle
  split
  · exact spin_angleInv r _ (AngleInv_of_sameSpin (markInactive_advanceCollide_sameSpin f p) h)
  · exact h

theorem advanceMany_angleInv (flags : List (Bool × Bool)) (p : Particle) (h : AngleInv p) :
    AngleInv (advanceMany flags p) := by
  unfold advanceMany
  induction flags generalizing p with
  | nil => exact h
  | cons x flags ih => exact ih _ (updateParticle_angleInv x.1 x.2 p h)

theorem newParticle_angleInv (s : Sim) : AngleInv (newParticle s).1 := by
  unfold newParticle rand AngleInv
  cases hsp : s.randomSpeedMode <;> simp [hsp] <;> norm_num

theorem updateFrame_allEntries {P : Particle → Prop}
    (hupd : ∀ r f p, P p → P (updateParticle r f p)) {s s2 : Sim} {fuel : Nat}
    (ha : AllEntries P s) (h : updateFrame fuel s = some s2) : AllEntries P s2 := by
  obtain ⟨l, hr, hP⟩ := ha
  obtain ⟨s3, h3, hr3, -⟩ := updateFrame_spec hr (le_max_right fuel l.length)
  rw [updateFrame_mono h (le_max_left fuel l.length)] at h3
  cases h3
  refine ⟨_, hr3, ?_⟩
  intro e he
  obtain ⟨x, hx, rfl⟩ := List.mem_map.1 (List.mem_filter.1 he).1
  exact hupd _ _ _ (hP x hx)

theorem createParticle_allEntries {P : Particle → Prop} (hnew : ∀ s, P (newParticle s).1)
    {s s2 : Sim} {newNode : Option Nat} (ha : AllEntries P s)
    (hfresh : ∀ a, newNode = some a → s.heap a = none)
    (h : createParticle newNode s = some s2) : AllEntries P s2 := by
  obtain ⟨l, hr, hP⟩ := ha
  cases newNode with
  | none => cases h
  | some a =>
    obtain ⟨s3, h3, hr3, -⟩ := createParticle_spec a hr (hfresh a rfl)
    rw [h] at h3
    cases h3
    refine ⟨_, hr3, ?_⟩
    intro e he
    rcases List.mem_append.1 he with he | he
    · exact hP e he
    · rw [List.mem_singleton] at he
      subst he
      exact hnew s

theorem Reachable.allEntries {P : Particle → Prop} (hnew : ∀ s, P (newParticle s).1)
    (hupd : ∀ r f p, P p → P (updateParticle r f p)) {s : Sim} (h : Reachable s) :
    AllEntries P s := by
  induction h with
  | init rng => exact ⟨[], ⟨⟨rfl, rfl⟩, rfl⟩, fun e he => by cases he⟩
  | @tick s s2 newNode fuel _ hfresh hstep ih =>
    unfold timerFunc at hstep
    split at hstep
    · cases h1 : createParticle newNode s with
      | none => rw [h1] at hstep; cases hstep
      | some s1 =>
        rw [h1] at hstep
        exact updateFrame_allEntries hupd (createParticle_allEntries hnew ih hfresh h1) hstep
    · exact updateFrame_allEntries hupd ih hstep
  | @key s s2 k newNode fuel _ hfresh hstep ih =>
    cases k
    case f =>
      unfold keyboard at hstep
      dsimp only at hstep
      split at hstep
      · exact createParticle_allEntries hnew ih hfresh hstep
      · cases hstep; exact ih
    case t =>
      obtain ⟨l, hr, -⟩ := ih
      have h0 : resetSimulation fuel s = some s2 := hstep
      obtain ⟨s3, h3, hr3, -⟩ := resetSimulation_spec hr (le_max_right fuel l.length)
      rw [resetSimulation_mono h0 (le_max_left fuel l.length)] at h3
      cases h3
      exact ⟨[], hr3, fun e he => by cases he⟩
    all_goals
      cases hstep
      exact ih

theorem initialSim_rep (rng : Nat → Nat) : Rep (initialSim rng) [] :=
  ⟨⟨rfl, rfl⟩, rfl⟩

theorem spin_markInactive_sameMotion (r : Bool) (p : Particle) :
    SameMotion p (spin r (markInactive p)) := by
  unfold spin markInactive
  cases r <;> by_cases h1 : p.speed < 0.1 <;> by_cases h2 : p.py < -75.0 <;>
    simp [h1, h2, SameMotion]

theorem updateParticle_sameMotion (r f : Bool) (p : Particle) (hactive : p.active = true) :
    SameMotion (advanceCollide f p) (updateParticle r f p) := by
  unfold updateParticle
  rw [if_pos hactive]
  exact spin_markInactive_sameMotion r _

theorem sampleBoth_hits :
    groundHit (integrate sampleBoth) = true ∧
    sphereHit (handleGroundCollision true (integrate sampleBoth)) = true ∧
    (integrate sampleBoth).px = -10 ∧ (integrate sampleBoth).py = 0.05 ∧
    (integrate sampleBoth).pz = -10 ∧
    (handleGroundCollision true (integrate sampleBoth)).py = 0.1 := by
  decide!


theorem manualStore_rep : Rep manualStore sampleEntries :=
  ⟨⟨rfl, _, rfl, rfl, rfl, rfl, _, rfl, rfl, rfl, rfl, _, rfl, rfl, rfl, rfl, rfl⟩, rfl⟩

theorem roundEven_near (q : ℚ) : |(roundEven q : ℚ) - q| ≤ 1 / 2 := by
  have h1 := Int.floor_le q
  have h2 := Int.lt_floor_add_one q
  unfold roundEven
  dsimp only
  rw [abs_le]
  split_ifs <;> push_cast <;> constructor <;> linarith

theorem binadeFrom_spec (k : Nat) :
    ∀ (e : Int) (a : ℚ), e ≤ binadeFrom k e a ∧ binadeFrom k e a ≤ e + k ∧
      ((2 : ℚ) ^ e ≤ a → (2 : ℚ) ^ binadeFrom k e a ≤ a) ∧
      (binadeFrom k e a < e + k → a < (2 : ℚ) ^ (binadeFrom k e a + 1)) := by
  induction k with
  | zero =>
    intro e a
    simp [binadeFrom]
  | succ k ih =>
    intro e a
    unfold binadeFrom
    split
    · rename_i hle
      obtain ⟨h1, h2, h3, h4⟩ := ih (e + 1) a
      refine ⟨by omega, by push_cast; omega, fun _ => h3 hle, fun hlt => h4 ?_⟩
      push_cast at hlt
      omega
    · rename_i hlt
      refine ⟨le_refl _, by push_cast; omega, fun h => h, fun _ => not_le.1 hlt⟩

/-- The exponent `binade` picks is in range and brackets `|x|`. -/
theorem binade_spec (x : ℚ) :
    -126 ≤ binade x ∧ binade x ≤ 127 ∧
    ((2 : ℚ) ^ (-126 : Int) ≤ |x| → (2 : ℚ) ^ binade x ≤ |x|) ∧
    (|x| < (2 : ℚ) ^ (128 : Int) → |x| < (2 : ℚ) ^ (binade x + 1)) := by
  obtain ⟨h1, h2, h3, h4⟩ := binadeFrom_spec 253 (-126) |x|
  unfold binade
  refine ⟨h1, by simpa using h2, h3, ?_⟩
  intro hx
  by_cases hlt : binadeFrom 253 (-126) |x| < -126 + (253 : Nat)
  · exact h4 hlt
  · have heq : binadeFrom 253 (-126) |x| = 127 := by
      have : binadeFrom 253 (-126) |x| ≤ 127 := by simpa using h2
      push_cast at hlt
      omega
    rw [heq]
    exact hx

/-- The value `roundF32 x` is a multiple of the spacing `2 ^ (binade x - 23)` of the floats
around `x`, at most half a spacing away from `x`. -/
theorem roundF32_near (x : ℚ) :
    (∃ m : Int, roundF32 x = m * (2 : ℚ) ^ (binade x - 23)) ∧
    |roundF32 x - x| ≤ (2 : ℚ) ^ (binade x - 23) / 2 := by
  have hu : (0 : ℚ) < (2 : ℚ) ^ (binade x - 23) := zpow_pos (by norm_num) _
  refine ⟨⟨_, rfl⟩, ?_⟩
  have h := roundEven_near (x / (2 : ℚ) ^ (binade x - 23))
  have e : roundF32 x - x =
      ((roundEven (x / (2 : ℚ) ^ (binade x - 23)) : ℚ) - x / (2 : ℚ) ^ (binade x - 23)) *
        (2 : ℚ) ^ (binade x - 23) := by
    unfold roundF32
    field_simp
  rw [e, abs_mul, abs_of_pos hu]
  calc |(roundEven (x / (2 : ℚ) ^ (binade x - 23)) : ℚ) - x / (2 : ℚ) ^ (binade x - 23)| *
        (2 : ℚ) ^ (binade x - 23)
      ≤ 1 / 2 * (2 : ℚ) ^ (binade x - 23) := mul_le_mul_of_nonneg_right h hu.le
    _ = (2 : ℚ) ^ (binade x - 23) / 2 := by ring

/-! ## The claims -/

/-- C1: on a well-formed store whose entry sequence is `l`, `removeInactiveParticles`
returns (given fuel for `l.length` iterations) a store whose entry sequence is `l` filtered
by `active`: the same nodes holding the same particles in the same order; and `size` has
dropped by the number of inactive entries. -/
theorem removeInactiveParticles_filter (s : Sim) (l : List (Nat × Particle)) (fuel : Nat)
    (hw : WellFormed s) (he : Entries s.heap s.particleList.head l) (hfuel : l.length ≤ fuel) :
    ∃ s2, removeInactiveParticles fuel s = some s2 ∧
      Entries s2.heap s2.particleList.head (l.filter (fun e => e.2.active)) ∧
      s2.particleList.size =
        s.particleList.size - (l.countP (fun e => !e.2.active) : Nat) := by
  have hr := Rep_of_WellFormed_entries hw he
  obtain ⟨s2, h1, h2, -⟩ := removeInactiveParticles_spec hr hfuel
  refine ⟨s2, h1, Seg_entries h2.1, ?_⟩
  rw [h2.2, hr.2]
  have := @List.length_eq_length_filter_add _ l (fun e => e.2.active)
  rw [List.countP_eq_length_filter]
  omega

theorem removeInactiveParticles_filter_witness :
    WellFormed sampleStore ∧
    Entries sampleStore.heap sampleStore.particleList.head sampleEntries ∧
    sampleEntries.length ≤ 3 ∧
    ∃ s2, removeInactiveParticles 3 sampleStore = some s2 ∧
      Entries s2.heap s2.particleList.head [(1, sampleParticle)] ∧
      s2.particleList.size = 1 := by
  refine ⟨sampleStore_wellFormed, sampleStore_entries, by decide, ?_⟩
  obtain ⟨s2, h1, h2, h3⟩ := removeInactiveParticles_filter sampleStore sampleEntries 3
    sampleStore_wellFormed sampleStore_entries (by decide)
  refine ⟨s2, h1, ?_, ?_⟩
  · simpa [sampleEntries, sampleDead, sampleParticle] using h2
  · rw [h3]
    simp [sampleEntries, sampleDead, sampleParticle, sampleStore]

/-- C2: in every reachable state (the start state, and every state reached from it by
timer ticks and by key presses: fire, reset, flag toggles) the store holds no inactive
particle; after every `updateFrame` from such a state every entry is active; and the next
tick returns. -/
theorem reachable_no_inactive (s : Sim) (h : Reachable s) :
    (∃ l, Entries s.heap s.particleList.head l ∧ ∀ e ∈ l, e.2.active = true) ∧
    (∀ fuel s2, updateFrame fuel s = some s2 →
      ∃ l2, Entries s2.heap s2.particleList.head l2 ∧ ∀ e ∈ l2, e.2.active = true) ∧
    (∀ a, s.heap a = none →
      ∃ s2, timerFunc (some a) (s.particleList.size.toNat + 1) s = some s2) := by
  obtain ⟨l, hr, hact⟩ := h.allActive
  refine ⟨⟨l, Seg_entries hr.1, hact⟩, ?_, ?_⟩
  · intro fuel s2 h2
    obtain ⟨l2, hr2, hact2⟩ := updateFrame_allActive hr h2
    exact ⟨l2, Seg_entries hr2.1, hact2⟩
  · intro a ha
    exact timerFunc_returns a hr ha

theorem reachable_no_inactive_witness :
    Reachable (initialSim (fun n => n)) ∧
    ∃ s2, timerFunc (some 0) 1 (initialSim (fun n => n)) = some s2 ∧ Reachable s2 ∧
      ∃ l, Entries s2.heap s2.particleList.head l ∧ ∀ e ∈ l, e.2.active = true := by
  refine ⟨Reachable.init _, ?_⟩
  obtain ⟨s2, h2⟩ :=
    (reachable_no_inactive (initialSim (fun n => n)) (Reachable.init _)).2.2 0 rfl
  have hreach : Reachable s2 :=
    Reachable.tick (some 0) 1 (Reachable.init (fun n => n)) (fun _ _ => rfl) h2
  exact ⟨s2, h2, hreach, (reachable_no_inactive s2 hreach).1⟩

/-- C3: a well-formed store stays well-formed under `createParticle` (the node `malloc`
returns being one not in use), under `removeInactiveParticles` whatever the `active` flags
are, and under `resetSimulation`; and each of the three returns. -/
theorem wellFormed_preserved (s : Sim) (hw : WellFormed s) :
    (∀ a, s.heap a = none → ∃ s2, createParticle (some a) s = some s2 ∧ WellFormed s2) ∧
    (∀ fuel : Nat, s.particleList.size ≤ fuel →
      ∃ s2, removeInactiveParticles fuel s = some s2 ∧ WellFormed s2) ∧
    (∀ fuel : Nat, s.particleList.size ≤ fuel →
      ∃ s2, resetSimulation fuel s = some s2 ∧ WellFormed s2) := by
  obtain ⟨l, hr⟩ := Rep_of_WellFormed hw
  have hlen : ∀ fuel : Nat, s.particleList.size ≤ fuel → l.length ≤ fuel := by
    intro fuel h
    rw [hr.2] at h
    exact_mod_cast h
  refine ⟨?_, ?_, ?_⟩
  · intro a ha
    obtain ⟨s2, h1, h2, -⟩ := createParticle_spec a hr ha
    exact ⟨s2, h1, WellFormed_of_Rep h2⟩
  · intro fuel hfuel
    obtain ⟨s2, h1, h2, -⟩ := removeInactiveParticles_spec hr (hlen fuel hfuel)
    exact ⟨s2, h1, WellFormed_of_Rep h2⟩
  · intro fuel hfuel
    obtain ⟨s2, h1, h2, -⟩ := resetSimulation_spec hr (hlen fuel hfuel)
    exact ⟨s2, h1, WellFormed_of_Rep h2⟩

theorem wellFormed_preserved_witness :
    WellFormed sampleStore ∧
    (∃ s2, createParticle (some 7) sampleStore = some s2 ∧ WellFormed s2) ∧
    (∃ s2, removeInactiveParticles 3 sampleStore = some s2 ∧ WellFormed s2) ∧
    (∃ s2, resetSimulation 3 sampleStore = some s2 ∧ WellFormed s2) :=
  ⟨sampleStore_wellFormed,
    (wellFormed_preserved sampleStore sampleStore_wellFormed).1 7 rfl,
    (wellFormed_preserved sampleStore sampleStore_wellFormed).2.1 3 (by decide),
    (wellFormed_preserved sampleStore sampleStore_wellFormed).2.2 3 (by decide)⟩

/-- C4: on a well-formed store with entry sequence `l`, for every setting of the flags and
every stream of `rand()` results, `createParticle` (given a node not in use) returns a
store whose entry sequence is `l`, unchanged, followed by the one new entry, which is the
tail; and `size` has grown by one. -/
theorem createParticle_appends (s : Sim) (l : List (Nat × Particle)) (a : Nat)
    (hw : WellFormed s) (he : Entries s.heap s.particleList.head l) (hfresh : s.heap a = none) :
    ∃ s2, createParticle (some a) s = some s2 ∧
      Entries s2.heap s2.particleList.head (l ++ [(a, (newParticle s).1)]) ∧
      s2.particleList.tail = some a ∧
      s2.particleList.size = s.particleList.size + 1 := by
  have hr := Rep_of_WellFormed_entries hw he
  obtain ⟨s2, h1, h2, -⟩ := createParticle_spec a hr hfresh
  refine ⟨s2, h1, Seg_entries h2.1, ?_, ?_⟩
  · rw [Seg_last h2.1, lastPtr_append_singleton]
  · rw [h2.2, hr.2]
    simp

theorem createParticle_appends_witness :
    WellFormed sampleStore ∧
    Entries sampleStore.heap sampleStore.particleList.head sampleEntries ∧
    sampleStore.heap 7 = none ∧
    ∃ s2, createParticle (some 7) sampleStore = some s2 ∧
      Entries s2.heap s2.particleList.head (sampleEntries ++ [(7, (newParticle sampleStore).1)]) ∧
      s2.particleList.tail = some 7 ∧
      s2.particleList.size = sampleStore.particleList.size + 1 :=
  ⟨sampleStore_wellFormed, sampleStore_entries, rfl,
    createParticle_appends sampleStore sampleEntries 7 sampleStore_wellFormed
      sampleStore_entries rfl⟩

/-- C5: whatever the store holds and whatever the flags are, a state `resetSimulation`
returns has `head` and `tail` null and `size` 0, and has `constantStream` true,
`manualFiring` false, `randomSpinMode` true, `frictionMode` true and `sprayMode` false; and
on a well-formed store `resetSimulation` does return (given fuel for `size` iterations). -/
theorem resetSimulation_clears (s : Sim) (fuel : Nat) :
    (∀ s2, resetSimulation fuel s = some s2 →
      s2.particleList.head = none ∧ s2.particleList.tail = none ∧ s2.particleList.size = 0 ∧
      s2.constantStream = true ∧ s2.manualFiring = false ∧ s2.randomSpinMode = true ∧
      s2.frictionMode = true ∧ s2.sprayMode = false) ∧
    (WellFormed s → s.particleList.size ≤ fuel →
      ∃ s2, resetSimulation fuel s = some s2 ∧
        s2.particleList.head = none ∧ s2.particleList.tail = none ∧
        s2.particleList.size = 0 ∧
        s2.constantStream = true ∧ s2.manualFiring = false ∧ s2.randomSpinMode = true ∧
        s2.frictionMode = true ∧ s2.sprayMode = false) := by
  constructor
  · intro s2 h
    unfold resetSimulation at h
    cases hl : resetLoop fuel s.particleList.head s.heap with
    | none => rw [hl] at h; cases h
    | some h2 =>
      rw [hl] at h
      cases h
      exact ⟨rfl, rfl, rfl, rfl, rfl, rfl, rfl, rfl⟩
  · intro hw hfuel
    obtain ⟨l, hr⟩ := Rep_of_WellFormed hw
    have hlen : l.length ≤ fuel := by
      rw [hr.2] at hfuel
      exact_mod_cast hfuel
    obtain ⟨s2, h1, h2, f1, f2, f3, f4, f5, -, -⟩ := resetSimulation_spec hr hlen
    exact ⟨s2, h1, (Seg_head h2.1), (Seg_last h2.1), h2.2, f1, f2, f3, f4, f5⟩

theorem resetSimulation_clears_witness :
    WellFormed sampleStore ∧ sampleStore.particleList.size ≤ (3 : Nat) ∧
    ∃ s2, resetSimulation 3 sampleStore = some s2 ∧
      s2.particleList.head = none ∧ s2.particleList.tail = none ∧ s2.particleList.size = 0 ∧
      s2.constantStream = true ∧ s2.manualFiring = false ∧ s2.randomSpinMode = true ∧
      s2.frictionMode = true ∧ s2.sprayMode = false :=
  ⟨sampleStore_wellFormed, by decide,
    (resetSimulation_clears sampleStore 3).2 sampleStore_wellFormed (by decide)⟩

/-- C6: `handleGroundCollision` changes the particle exactly when `-0.1 < py < 0.1`,
`-15 ≤ px ≤ 15`, `-15 ≤ pz ≤ 15` and the particle is not over the hole
(`5 ≤ px ≤ 10` and `5 ≤ pz ≤ 10`); it then sets `py` to 0.1 and negates `dy`, applying
friction afterwards when `frictionMode` is on, and otherwise returns the particle as it
was. A particle at `(7, 0.05, 7)` is returned unchanged; for one at `(3, 0.05, 3)` with
`dy ≠ 0` the sign of `dy` flips. -/
theorem handleGroundCollision_spec (frictionMode : Bool) (p : Particle) :
    (handleGroundCollision frictionMode p ≠ p ↔
      (-0.1 < p.py ∧ p.py < 0.1 ∧ -15 ≤ p.px ∧ p.px ≤ 15 ∧ -15 ≤ p.pz ∧ p.pz ≤ 15 ∧
        ¬ (5 ≤ p.px ∧ p.px ≤ 10 ∧ 5 ≤ p.pz ∧ p.pz ≤ 10))) ∧
    handleGroundCollision frictionMode p =
      (if -0.1 < p.py ∧ p.py < 0.1 ∧ -15 ≤ p.px ∧ p.px ≤ 15 ∧ -15 ≤ p.pz ∧ p.pz ≤ 15 ∧
          ¬ (5 ≤ p.px ∧ p.px ≤ 10 ∧ 5 ≤ p.pz ∧ p.pz ≤ 10) then
        (if frictionMode = true then applyFriction { p with py := 0.1, dy := -p.dy }
          else { p with py := 0.1, dy := -p.dy })
        else p) ∧
    handleGroundCollision frictionMode { p with px := 7, py := 0.05, pz := 7 } =
      { p with px := 7, py := 0.05, pz := 7 } ∧
    (p.dy ≠ 0 →
      (handleGroundCollision frictionMode { p with px := 3, py := 0.05, pz := 3 }).dy * p.dy < 0) := by
  have hform : handleGroundCollision frictionMode p =
      (if -0.1 < p.py ∧ p.py < 0.1 ∧ -15 ≤ p.px ∧ p.px ≤ 15 ∧ -15 ≤ p.pz ∧ p.pz ≤ 15 ∧
          ¬ (5 ≤ p.px ∧ p.px ≤ 10 ∧ 5 ≤ p.pz ∧ p.pz ≤ 10) then
        (if frictionMode = true then applyFriction { p with py := 0.1, dy := -p.dy }
          else { p with py := 0.1, dy := -p.dy })
        else p) := by
    unfold handleGroundCollision
    by_cases h : groundHit p = true
    · rw [if_pos h, if_pos ((groundHit_iff p).1 h)]
      cases frictionMode <;> simp
    · rw [if_neg h, if_neg (fun hc => h ((groundHit_iff p).2 hc))]
  refine ⟨?_, hform, ?_, ?_⟩
  · rw [hform]
    constructor
    · intro hne
      by_contra hc
      exact hne (if_neg hc)
    · intro hc hEq
      rw [if_pos hc] at hEq
      have hpy : p.py < 0.1 := hc.2.1
      have h2 : p.py = 0.1 := by
        cases frictionMode
        · have := congrArg Particle.py hEq
          simpa using this.symm
        · have := congrArg Particle.py hEq
          simpa [applyFriction] using this.symm
      rw [h2] at hpy
      exact lt_irrefl _ hpy
  · have hg : groundHit { p with px := 7, py := 0.05, pz := 7 } = false := by
      rw [Bool.eq_false_iff, Ne, groundHit_iff]
      norm_num
    simp [handleGroundCollision, hg]
  · intro hdy
    have hg : groundHit { p with px := 3, py := 0.05, pz := 3 } = true := by
      rw [groundHit_iff]
      norm_num
    have hsq : 0 < p.dy * p.dy := mul_self_pos.mpr hdy
    cases frictionMode
    · simp [handleGroundCollision, hg, hdy]
    · simp [handleGroundCollision, hg, applyFriction, FRICTION_FACTOR]
      nlinarith

theorem handleGroundCollision_spec_witness :
    sampleParticle.dy ≠ 0 ∧
    (handleGroundCollision true { sampleParticle with px := 3, py := 0.05, pz := 3 }).dy *
      sampleParticle.dy < 0 :=
  ⟨by norm_num [sampleParticle],
    (handleGroundCollision_spec true sampleParticle).2.2.2 (by norm_num [sampleParticle])⟩

/-- C8: for an active particle with `speed > 0`, the speed after one `updateParticle` is
the speed before when `frictionMode` is off, and the speed before times 0.9 for each of
the two checks (ground, then sphere) that triggered when it is on; so with friction on it
strictly decreases when a check triggers, and it never increases. -/
theorem updateParticle_speed (randomSpinMode frictionMode : Bool) (p : Particle)
    (hactive : p.active = true) (hspeed : p.speed > 0) :
    (updateParticle randomSpinMode frictionMode p).speed =
      (if frictionMode = true then
        p.speed * (if groundHit (integrate p) = true then 0.9 else 1) *
          (if sphereHit (handleGroundCollision frictionMode (integrate p)) = true then 0.9 else 1)
      else p.speed) ∧
    (frictionMode = false → (updateParticle randomSpinMode frictionMode p).speed = p.speed) ∧
    (frictionMode = true →
      (groundHit (integrate p) = true ∨
        sphereHit (handleGroundCollision frictionMode (integrate p)) = true) →
      (updateParticle randomSpinMode frictionMode p).speed < p.speed) ∧
    (updateParticle randomSpinMode frictionMode p).speed ≤ p.speed := by
  have hspin : ∀ q : Particle, (spin randomSpinMode q).speed = q.speed := by
    intro q; unfold spin; split <;> rfl
  have hmark : ∀ q : Particle, (markInactive q).speed = q.speed := by
    intro q; unfold markInactive; dsimp only; split <;> split <;> rfl
  have hint : (integrate p).speed = p.speed := rfl
  have hg : (handleGroundCollision frictionMode (integrate p)).speed =
      (if frictionMode = true then
        p.speed * (if groundHit (integrate p) = true then 0.9 else 1) else p.speed) := by
    unfold handleGroundCollision
    cases frictionMode <;> cases groundHit (integrate p) <;>
      simp [applyFriction, FRICTION_FACTOR, hint]
  have hs : ∀ q : Particle, (handleSphereCollision frictionMode q).speed =
      (if frictionMode = true then
        q.speed * (if sphereHit q = true then 0.9 else 1) else q.speed) := by
    intro q
    unfold handleSphereCollision
    cases frictionMode <;> cases sphereHit q <;>
      simp [applyFriction, FRICTION_FACTOR]
  have hform : (updateParticle randomSpinMode frictionMode p).speed =
      (if frictionMode = true then
        p.speed * (if groundHit (integrate p) = true then 0.9 else 1) *
          (if sphereHit (handleGroundCollision frictionMode (integrate p)) = true then 0.9 else 1)
      else p.speed) := by
    unfold updateParticle advanceCollide
    rw [if_pos hactive, hspin, hmark, hs, hg]
    cases frictionMode <;> simp
  refine ⟨hform, ?_, ?_, ?_⟩
  · intro hf
    rw [hform, hf]; simp
  · intro hf hor
    rw [hform, if_pos hf]
    rcases hor with h | h
    · rw [if_pos h]
      split <;> nlinarith
    · rw [if_pos h]
      split <;> nlinarith
  · rw [hform]
    split
    · split <;> split <;> nlinarith
    · exact le_refl _

theorem updateParticle_speed_witness :
    sampleLanding.active = true ∧ sampleLanding.speed > 0 ∧
    (updateParticle true true sampleLanding).speed < sampleLanding.speed ∧
    (updateParticle true false sampleLanding).speed = sampleLanding.speed :=
  ⟨rfl, by norm_num [sampleLanding, sampleParticle],
    (updateParticle_speed true true sampleLanding rfl
      (by norm_num [sampleLanding, sampleParticle])).2.2.1 rfl (Or.inl sampleLanding_groundHit),
    (updateParticle_speed true false sampleLanding rfl
      (by norm_num [sampleLanding, sampleParticle])).2.1 rfl⟩

/-- C9: on a well-formed store of active particles, `updateFrame` returns (given fuel for
`l.length` iterations) a store in which an entry of the old store is still present, holding
its updated particle, if and only if after the advance-and-collide step its `speed` is at
least 0.1 and its `py` at least -75.0; an entry whose `py` fell below -75.0 is absent. -/
theorem updateFrame_survivors (s : Sim) (l : List (Nat × Particle)) (fuel : Nat)
    (hw : WellFormed s) (he : Entries s.heap s.particleList.head l)
    (hact : ∀ e ∈ l, e.2.active = true) (hfuel : l.length ≤ fuel) :
    ∃ s2 l2, updateFrame fuel s = some s2 ∧ Entries s2.heap s2.particleList.head l2 ∧
      ∀ e ∈ l,
        (e.1 ∈ l2.map Prod.fst ↔
          (advanceCollide s.frictionMode e.2).speed ≥ 0.1 ∧
            (advanceCollide s.frictionMode e.2).py ≥ -75.0) ∧
        ((e.1, updateParticle s.randomSpinMode s.frictionMode e.2) ∈ l2 ↔
          (advanceCollide s.frictionMode e.2).speed ≥ 0.1 ∧
            (advanceCollide s.frictionMode e.2).py ≥ -75.0) ∧
        ((advanceCollide s.frictionMode e.2).py < -75.0 → e.1 ∉ l2.map Prod.fst) := by
  have hr := Rep_of_WellFormed_entries hw he
  have hnd := Entries_nodup he
  obtain ⟨s2, h1, h2, -⟩ := updateFrame_spec hr hfuel
  refine ⟨s2, _, h1, Seg_entries h2.1, ?_⟩
  intro e hel
  have hpair : (e.1, updateParticle s.randomSpinMode s.frictionMode e.2) ∈
      (l.map (fun e => (e.1, updateParticle s.randomSpinMode s.frictionMode e.2))).filter
        (fun e => e.2.active) ↔
      (advanceCollide s.frictionMode e.2).speed ≥ 0.1 ∧
        (advanceCollide s.frictionMode e.2).py ≥ -75.0 := by
    rw [List.mem_filter, ← updateParticle_active s.randomSpinMode s.frictionMode e.2 (hact e hel)]
    constructor
    · exact fun h => h.2
    · exact fun h => ⟨List.mem_map.2 ⟨e, hel, rfl⟩, h⟩
  have haddr : e.1 ∈ ((l.map (fun e => (e.1, updateParticle s.randomSpinMode s.frictionMode e.2))).filter
        (fun e => e.2.active)).map Prod.fst ↔
      (advanceCollide s.frictionMode e.2).speed ≥ 0.1 ∧
        (advanceCollide s.frictionMode e.2).py ≥ -75.0 := by
    rw [← hpair]
    constructor
    · intro hmem
      obtain ⟨x, hx, hx1⟩ := List.mem_map.1 hmem
      obtain ⟨hxm, hxa⟩ := List.mem_filter.1 hx
      obtain ⟨y, hy, rfl⟩ := List.mem_map.1 hxm
      have hye : y = e := by
        have h1 : y.1 = e.1 := hx1
        exact (List.inj_on_of_nodup_map hnd) hy hel h1
      subst hye
      exact hx
    · intro hmem
      exact List.mem_map.2 ⟨_, hmem, rfl⟩
  refine ⟨haddr, hpair, ?_⟩
  intro hlow hmem
  have := (haddr.1 hmem).2
  exact absurd hlow (not_lt.2 this)

theorem updateFrame_survivors_witness :
    WellFormed activeStore ∧
    Entries activeStore.heap activeStore.particleList.head activeEntries ∧
    (∀ e ∈ activeEntries, e.2.active = true) ∧ activeEntries.length ≤ 2 ∧
    ∃ s2 l2, updateFrame 2 activeStore = some s2 ∧ Entries s2.heap s2.particleList.head l2 ∧
      0 ∈ l2.map Prod.fst ∧ 1 ∉ l2.map Prod.fst := by
  refine ⟨WellFormed_of_Rep activeStore_rep, Seg_entries activeStore_rep.1,
    activeEntries_active, by decide, ?_⟩
  obtain ⟨s2, l2, h1, h2, h3⟩ := updateFrame_survivors activeStore activeEntries 2
    (WellFormed_of_Rep activeStore_rep) (Seg_entries activeStore_rep.1) activeEntries_active
    (by decide)
  refine ⟨s2, l2, h1, h2, ?_, ?_⟩
  · refine (h3 (0, sampleLanding) (by simp [activeEntries])).1.2 ⟨?_, ?_⟩
    · show (advanceCollide true sampleLanding).speed ≥ 0.1
      rw [sampleLanding_advanceCollide.1]
      norm_num
    · show (advanceCollide true sampleLanding).py ≥ -75.0
      rw [sampleLanding_advanceCollide.2]
      norm_num
  · refine (h3 (1, sampleFalling) (by simp [activeEntries])).2.2 ?_
    show (advanceCollide true sampleFalling).py < -75.0
    rw [sampleFalling_advanceCollide]
    norm_num

/-- C10: for every stream of `rand()` results, the particle in the node `createParticle`
links in has `dx` and `dz` in `[-0.5, 0.5]` when `sprayMode` is off and in `[-1.0, 1.0]`
when it is on, `speed` equal to 1.0 when `randomSpeedMode` is off and in `[1.0, 2.0)` when
it is on, each colour channel in `[0, 1)`, and `active` true. -/
theorem createParticle_ranges (s : Sim) (a : Nat) (hw : WellFormed s)
    (hfresh : s.heap a = none) :
    ∃ s2 n, createParticle (some a) s = some s2 ∧ s2.heap a = some n ∧
      (s.sprayMode = false →
        -0.5 ≤ n.particle.dx ∧ n.particle.dx ≤ 0.5 ∧
        -0.5 ≤ n.particle.dz ∧ n.particle.dz ≤ 0.5) ∧
      (s.sprayMode = true →
        -1.0 ≤ n.particle.dx ∧ n.particle.dx ≤ 1.0 ∧
        -1.0 ≤ n.particle.dz ∧ n.particle.dz ≤ 1.0) ∧
      (s.randomSpeedMode = false → n.particle.speed = 1.0) ∧
      (s.randomSpeedMode = true → 1.0 ≤ n.particle.speed ∧ n.particle.speed < 2.0) ∧
      (0 ≤ n.particle.color0 ∧ n.particle.color0 < 1) ∧
      (0 ≤ n.particle.color1 ∧ n.particle.color1 < 1) ∧
      (0 ≤ n.particle.color2 ∧ n.particle.color2 < 1) ∧
      n.particle.active = true := by
  obtain ⟨l, hr⟩ := Rep_of_WellFormed hw
  obtain ⟨s2, h1, h2, -⟩ := createParticle_spec a hr hfresh
  obtain ⟨n, hn, hpart, -, -⟩ := @Seg_mid _ l [] _ _ _ _ _ h2.1
  have hp : n.particle = (newParticle s).1 := hpart
  refine ⟨s2, n, h1, hn, ?_⟩
  rw [hp]
  exact newParticle_ranges s

theorem createParticle_ranges_witness :
    WellFormed sampleStore ∧ sampleStore.heap 7 = none ∧
    ∃ s2 n, createParticle (some 7) sampleStore = some s2 ∧ s2.heap 7 = some n ∧
      (-0.5 ≤ n.particle.dx ∧ n.particle.dx ≤ 0.5 ∧
        -0.5 ≤ n.particle.dz ∧ n.particle.dz ≤ 0.5) ∧
      n.particle.speed = 1.0 ∧
      (0 ≤ n.particle.color0 ∧ n.particle.color0 < 1) ∧
      (0 ≤ n.particle.color1 ∧ n.particle.color1 < 1) ∧
      (0 ≤ n.particle.color2 ∧ n.particle.color2 < 1) ∧
      n.particle.active = true := by
  refine ⟨sampleStore_wellFormed, rfl, ?_⟩
  obtain ⟨s2, n, h1, h2, h3, -, h5, -, h7⟩ :=
    createParticle_ranges sampleStore 7 sampleStore_wellFormed rfl
  exact ⟨s2, n, h1, h2, h3 rfl, h5 rfl, h7⟩

/-- C11: on a well-formed store with entry sequence `l`, one `timerFunc` tick calls
`createParticle` once when `constantStream` is on and `manualFiring` is off, and not at all
for the other three settings of the two flags; the spawn comes before `updateFrame`, so the
store after the tick holds the old entries followed by the new one (when spawned), each
passed once through `updateParticle`, filtered to the active ones. -/
theorem timerFunc_tick (s : Sim) (l : List (Nat × Particle)) (fuel : Nat)
    (hw : WellFormed s) (he : Entries s.heap s.particleList.head l)
    (hfuel : l.length + 1 ≤ fuel) :
    (s.constantStream = true ∧ s.manualFiring = false →
      ∀ a, s.heap a = none →
        ∃ s1 s2, createParticle (some a) s = some s1 ∧ timerFunc (some a) fuel s = some s2 ∧
          updateFrame fuel s1 = some s2 ∧
          Entries s1.heap s1.particleList.head (l ++ [(a, (newParticle s).1)]) ∧
          Entries s2.heap s2.particleList.head
            (((l ++ [(a, (newParticle s).1)]).map
              (fun e => (e.1, updateParticle s.randomSpinMode s.frictionMode e.2))).filter
                (fun e => e.2.active))) ∧
    (¬ (s.constantStream = true ∧ s.manualFiring = false) →
      ∀ newNode, ∃ s2, timerFunc newNode fuel s = some s2 ∧
        updateFrame fuel s = some s2 ∧
        Entries s2.heap s2.particleList.head
          ((l.map (fun e => (e.1, updateParticle s.randomSpinMode s.frictionMode e.2))).filter
            (fun e => e.2.active))) := by
  have hr := Rep_of_WellFormed_entries hw he
  constructor
  · rintro ⟨hc, hm⟩ a ha
    obtain ⟨s1, h1, hr1, hflags⟩ := createParticle_spec a hr ha
    obtain ⟨s2, h2, hr2, -⟩ := @updateFrame_spec s1 _ fuel hr1 (by simpa using hfuel)
    obtain ⟨-, -, -, f4, f5, -⟩ := hflags
    rw [f4, f5] at hr2
    refine ⟨s1, s2, h1, ?_, h2, Seg_entries hr1.1, Seg_entries hr2.1⟩
    unfold timerFunc
    simp only [hc, hm, h1]
    simpa using h2
  · intro hno newNode
    obtain ⟨s2, h2, hr2, -⟩ := @updateFrame_spec s _ fuel hr (by omega)
    refine ⟨s2, ?_, h2, Seg_entries hr2.1⟩
    unfold timerFunc
    rw [if_neg]
    · exact h2
    · intro hb
      apply hno
      simpa using hb

theorem timerFunc_tick_witness :
    WellFormed sampleStore ∧
    Entries sampleStore.heap sampleStore.particleList.head sampleEntries ∧
    (∃ s2, timerFunc (some 7) 4 sampleStore = some s2 ∧
      Entries s2.heap s2.particleList.head
        (((sampleEntries ++ [(7, (newParticle sampleStore).1)]).map
          (fun e : Nat × Particle => (e.1, updateParticle true true e.2))).filter (fun e => e.2.active))) ∧
    WellFormed manualStore ∧
    (∃ s2, timerFunc (some 7) 4 manualStore = some s2 ∧
      Entries s2.heap s2.particleList.head
        ((sampleEntries.map (fun e : Nat × Particle => (e.1, updateParticle true true e.2))).filter
          (fun e => e.2.active))) := by
  refine ⟨sampleStore_wellFormed, sampleStore_entries, ?_, WellFormed_of_Rep manualStore_rep, ?_⟩
  · obtain ⟨s1, s2, -, h2, -, -, h5⟩ :=
      (timerFunc_tick sampleStore sampleEntries 4 sampleStore_wellFormed sampleStore_entries
        (by decide)).1 ⟨rfl, rfl⟩ 7 rfl
    exact ⟨s2, h2, h5⟩
  · obtain ⟨s2, h2, -, h3⟩ :=
      (timerFunc_tick manualStore sampleEntries 4 (WellFormed_of_Rep manualStore_rep)
        (Seg_entries manualStore_rep.1) (by decide)).2 (by decide) (some 7)
    exact ⟨s2, h2, h3⟩

/-- C12: some active particle arrives at `(-10, 0.05, -10)`, where the ground check
triggers and, on the position snapped to `py = 0.1`, the sphere check triggers too; and
whenever both trigger in one `updateParticle` step with `frictionMode` on, the effects
compose ground first, sphere second: `speed` ends at `speed * 0.9 * 0.9 = 0.81 * speed`,
`dy` is negated twice (`dx`, `dz` once), and `py` is the snapped 0.1 plus the sphere
offset. -/
theorem both_collisions_compose :
    (∃ p : Particle, p.active = true ∧
      (integrate p).px = -10 ∧ (integrate p).py = 0.05 ∧ (integrate p).pz = -10 ∧
      groundHit (integrate p) = true ∧
      (handleGroundCollision true (integrate p)).py = 0.1 ∧
      sphereHit (handleGroundCollision true (integrate p)) = true) ∧
    (∀ (randomSpinMode : Bool) (p : Particle), p.active = true →
      groundHit (integrate p) = true →
      sphereHit (handleGroundCollision true (integrate p)) = true →
      (updateParticle randomSpinMode true p).speed = p.speed * 0.9 * 0.9 ∧
      (updateParticle randomSpinMode true p).speed = 0.81 * p.speed ∧
      (updateParticle randomSpinMode true p).dy = -(-(p.dy - 0.005) * 0.9) * 0.9 ∧
      (updateParticle randomSpinMode true p).dx = -(p.dx * 0.9) * 0.9 ∧
      (updateParticle randomSpinMode true p).dz = -(p.dz * 0.9) * 0.9 ∧
      (updateParticle randomSpinMode true p).py =
        0.1 + 0.05 * (-(-(p.dy - 0.005) * 0.9) * 0.9)) := by
  constructor
  · obtain ⟨h1, h2, h3, h4, h5, h6⟩ := sampleBoth_hits
    exact ⟨sampleBoth, rfl, h3, h4, h5, h1, h6, h2⟩
  · intro r p hactive hg hs
    obtain ⟨m1, m2, m3, m4, m5, m6, m7⟩ := updateParticle_sameMotion r true p hactive
    have hadv : advanceCollide true p =
        handleSphereCollision true (handleGroundCollision true (integrate p)) := rfl
    rw [m2, m4, m5, m6, m7, hadv]
    unfold handleSphereCollision
    rw [if_pos hs]
    unfold handleGroundCollision
    rw [if_pos hg]
    simp only [applyFriction, integrate, GRAVITY, SPEED_FACTOR, FRICTION_FACTOR,
      beq_self_eq_true, if_true]
    refine ⟨?_, ?_, ?_, ?_, ?_, ?_⟩ <;> ring_nf

theorem both_collisions_compose_witness :
    sampleBoth.active = true ∧ groundHit (integrate sampleBoth) = true ∧
    sphereHit (handleGroundCollision true (integrate sampleBoth)) = true ∧
    (updateParticle true true sampleBoth).speed = 0.81 ∧
    (updateParticle true true sampleBoth).dy = 0 ∧
    (updateParticle true true sampleBoth).py = 0.1 := by
  obtain ⟨-, h2, h3, -, -, h6⟩ :=
    both_collisions_compose.2 true sampleBoth rfl sampleBoth_hits.1 sampleBoth_hits.2.1
  refine ⟨rfl, sampleBoth_hits.1, sampleBoth_hits.2.1, ?_, ?_, ?_⟩
  · rw [h2]; norm_num [sampleBoth, sampleParticle]
  · rw [h3]; norm_num [sampleBoth, sampleParticle]
  · rw [h6]; norm_num [sampleBoth, sampleParticle]

/-- C13: for an active particle for which neither the ground check nor the sphere check
triggers at the integrated position, one `updateParticle` step gives `dy - 0.005`,
`px + dx * speed * 0.1`, `py + (dy - 0.005) * speed * 0.1`, `pz + dz * speed * 0.1`, with
`dx`, `dz` and `speed` unchanged: the position update uses the vertical velocity that
gravity has already been added to. -/
theorem updateParticle_free_flight (randomSpinMode frictionMode : Bool) (p : Particle)
    (hactive : p.active = true) (hground : groundHit (integrate p) = false)
    (hsphere : sphereHit (integrate p) = false) :
    (updateParticle randomSpinMode frictionMode p).dy = p.dy - 0.005 ∧
    (updateParticle randomSpinMode frictionMode p).px = p.px + p.dx * p.speed * 0.1 ∧
    (updateParticle randomSpinMode frictionMode p).py =
      p.py + (p.dy - 0.005) * p.speed * 0.1 ∧
    (updateParticle randomSpinMode frictionMode p).pz = p.pz + p.dz * p.speed * 0.1 ∧
    (updateParticle randomSpinMode frictionMode p).dx = p.dx ∧
    (updateParticle randomSpinMode frictionMode p).dz = p.dz ∧
    (updateParticle randomSpinMode frictionMode p).speed = p.speed := by
  have hadv : advanceCollide frictionMode p = integrate p := by
    unfold advanceCollide handleGroundCollision
    rw [hground]
    unfold handleSphereCollision
    simp [hsphere]
  obtain ⟨m1, m2, m3, m4, m5, m6, m7⟩ :=
    updateParticle_sameMotion randomSpinMode frictionMode p hactive
  rw [hadv] at m1 m2 m3 m4 m5 m6 m7
  rw [m1, m2, m3, m4, m5, m6, m7]
  refine ⟨?_, ?_, ?_, ?_, rfl, rfl, rfl⟩ <;>
    simp only [integrate, GRAVITY, SPEED_FACTOR] <;> ring

theorem updateParticle_free_flight_witness :
    sampleFree.active = true ∧ groundHit (integrate sampleFree) = false ∧
    sphereHit (integrate sampleFree) = false ∧
    (updateParticle true true sampleFree).dy = 0.995 ∧
    (updateParticle true true sampleFree).py = 0.5995 := by
  have hg : groundHit (integrate sampleFree) = false := by
    rw [Bool.eq_false_iff, Ne, groundHit_iff]
    norm_num [integrate, sampleFree, sampleParticle, GRAVITY, SPEED_FACTOR]
  have hs : sphereHit (integrate sampleFree) = false := by decide!
  obtain ⟨h1, -, h3, -⟩ := updateParticle_free_flight true true sampleFree rfl hg hs
  refine ⟨rfl, hg, hs, ?_, ?_⟩
  · rw [h1]; norm_num [sampleFree, sampleParticle]
  · rw [h3]; norm_num [sampleFree, sampleParticle]

/-- C14: the particle `createParticle` builds has angles 0 and increments 2.0, 3.0, 1.5;
after any number of `updateParticle` steps, each under any setting of `randomSpinMode` and
`frictionMode`, each of its three angles is in `[0, 360)`; and so is every angle of every
particle in the store of a reachable state. -/
theorem angles_in_range (s : Sim) (flags : List (Bool × Bool)) :
    ((newParticle s).1.angleX = 0 ∧ (newParticle s).1.angleY = 0 ∧
      (newParticle s).1.angleZ = 0 ∧ (newParticle s).1.dAngleX = 2.0 ∧
      (newParticle s).1.dAngleY = 3.0 ∧ (newParticle s).1.dAngleZ = 1.5) ∧
    ((0 ≤ (advanceMany flags (newParticle s).1).angleX ∧
        (advanceMany flags (newParticle s).1).angleX < 360) ∧
      (0 ≤ (advanceMany flags (newParticle s).1).angleY ∧
        (advanceMany flags (newParticle s).1).angleY < 360) ∧
      (0 ≤ (advanceMany flags (newParticle s).1).angleZ ∧
        (advanceMany flags (newParticle s).1).angleZ < 360)) ∧
    (Reachable s → ∃ l, Entries s.heap s.particleList.head l ∧
      ∀ e ∈ l, (0 ≤ e.2.angleX ∧ e.2.angleX < 360) ∧ (0 ≤ e.2.angleY ∧ e.2.angleY < 360) ∧
        (0 ≤ e.2.angleZ ∧ e.2.angleZ < 360)) := by
  refine ⟨?_, ?_, ?_⟩
  · unfold newParticle rand
    cases hsp : s.randomSpeedMode <;> simp [hsp] <;> norm_num
  · obtain ⟨hx, hy, hz, -⟩ := advanceMany_angleInv flags _ (newParticle_angleInv s)
    exact ⟨hx, hy, hz⟩
  · intro hreach
    obtain ⟨l, hr, hP⟩ := Reachable.allEntries newParticle_angleInv updateParticle_angleInv hreach
    refine ⟨l, Seg_entries hr.1, ?_⟩
    intro e he
    obtain ⟨hx, hy, hz, -⟩ := hP e he
    exact ⟨hx, hy, hz⟩

theorem angles_in_range_witness :
    Reachable (initialSim (fun n => n)) ∧
    ∃ s2, timerFunc (some 0) 1 (initialSim (fun n => n)) = some s2 ∧ Reachable s2 ∧
      ∃ l, Entries s2.heap s2.particleList.head l ∧
        ∀ e ∈ l, (0 ≤ e.2.angleX ∧ e.2.angleX < 360) ∧ (0 ≤ e.2.angleY ∧ e.2.angleY < 360) ∧
          (0 ≤ e.2.angleZ ∧ e.2.angleZ < 360) := by
  refine ⟨Reachable.init _, ?_⟩
  obtain ⟨s2, h2⟩ := timerFunc_returns 0 (initialSim_rep (fun n => n)) rfl
  have hreach : Reachable s2 :=
    Reachable.tick (some 0) 1 (Reachable.init (fun n => n)) (fun _ _ => rfl) h2
  exact ⟨s2, h2, hreach, (angles_in_range s2 []).2.2 hreach⟩

end ParticleFountain
